import Mathlib

/-!
Shallow embedding of the `sqlite_fuse` filesystem driver (src/main.rs) and
verification of its specification claims.

Conventions of the embedding:
* Database TEXT values (ids, titles, paths) are Lean `String`s; the note
  `body` column is kept as the list of its UTF-8 bytes (`List Nat`), because
  the driver manipulates bodies byte-wise (`String::into_bytes`,
  `String::from_utf8_lossy`).
* `OsStr` arguments are `Option String`: `some s` models a name whose
  `to_str()` succeeds with `s`, `none` a non-UTF-8 name.
* SQLite is modelled as in-memory lists of rows; a query never fails on its
  own (the rusqlite `Err` branches reachable only through connection
  failures are absent), while `QueryReturnedNoRows` is modelled by `Option`.
* Wall-clock reads (`SystemTime::now`) and UUID generation are passed in as
  explicit parameters of the corresponding upcalls.
-/

/-- UTF-8 encoding of U+FFFD REPLACEMENT CHARACTER. -/
def replacementBytes : List Nat := [0xEF, 0xBF, 0xBD]

/-- Is `b` a UTF-8 continuation byte (`0x80..=0xBF`)? -/
def isCont (b : Nat) : Bool := 0x80 ≤ b && b ≤ 0xBF

/-- One step of Rust's `String::from_utf8_lossy` re-encoded to bytes: given a
lead byte and the remaining input, return the emitted bytes and the input
left to process.  Invalid maximal subparts become `replacementBytes`,
following `core::str`'s `error_len` rules. -/
def utf8Step (b : Nat) (bs : List Nat) : List Nat × List Nat :=
  if b < 0x80 then ([b], bs)
  else if 0xC2 ≤ b && b ≤ 0xDF then
    match bs with
    | [] => (replacementBytes, [])
    | b1 :: rest =>
      if isCont b1 then ([b, b1], rest) else (replacementBytes, b1 :: rest)
  else if 0xE0 ≤ b && b ≤ 0xEF then
    let lo1 := if b = 0xE0 then 0xA0 else 0x80
    let hi1 := if b = 0xED then 0x9F else 0xBF
    match bs with
    | [] => (replacementBytes, [])
    | b1 :: rest1 =>
      if lo1 ≤ b1 && b1 ≤ hi1 then
        match rest1 with
        | [] => (replacementBytes, [])
        | b2 :: rest2 =>
          if isCont b2 then ([b, b1, b2], rest2)
          else (replacementBytes, b2 :: rest2)
      else (replacementBytes, b1 :: rest1)
  else if 0xF0 ≤ b && b ≤ 0xF4 then
    let lo1 := if b = 0xF0 then 0x90 else 0x80
    let hi1 := if b = 0xF4 then 0x8F else 0xBF
    match bs with
    | [] => (replacementBytes, [])
    | b1 :: rest1 =>
      if lo1 ≤ b1 && b1 ≤ hi1 then
        match rest1 with
        | [] => (replacementBytes, [])
        | b2 :: rest2 =>
          if isCont b2 then
            match rest2 with
            | [] => (replacementBytes, [])
            | b3 :: rest3 =>
              if isCont b3 then ([b, b1, b2, b3], rest3)
              else (replacementBytes, b3 :: rest3)
          else (replacementBytes, b2 :: rest2)
      else (replacementBytes, b1 :: rest1)
  else (replacementBytes, bs)

/-- Fuel-driven loop of the lossy conversion; `utf8Step` consumes at least
the lead byte, so fuel equal to the input length never runs out. -/
def utf8LossyGo : Nat → List Nat → List Nat
  | _, [] => []
  | 0, _ :: _ => []
  | fuel + 1, b :: bs =>
    let s := utf8Step b bs
    s.1 ++ utf8LossyGo fuel s.2

/-- Bytes of `String::from_utf8_lossy(bytes).to_string()`: valid UTF-8
sequences are copied, each invalid maximal subpart is replaced by the
replacement character. -/
def utf8Lossy (l : List Nat) : List Nat := utf8LossyGo l.length l

/-- The characters of the literal `".md"`. -/
def mdChars : List Char := ['.', 'm', 'd']

/-- `str::ends_with(".md")`. -/
def endsWithMd (s : String) : Bool :=
  3 ≤ s.data.length && s.data.drop (s.data.length - 3) = mdChars

/-- `SqliteFS::strip_md_suffix`: `filename.strip_suffix(".md").unwrap_or(filename)`. -/
def strip_md_suffix (filename : String) : String :=
  if endsWithMd filename then String.mk (filename.data.take (filename.data.length - 3))
  else filename

/-- `SqliteFS::add_md_suffix`: return `title` if it ends with `".md"`,
otherwise `title + ".md"`. -/
def add_md_suffix (title : String) : String :=
  if endsWithMd title then title else String.mk (title.data ++ mdChars)

/-- A row of the `folders` table (the columns this system reads). -/
structure FolderRow where
  id : String
  title : String
  parent_id : String
  created_time : Int
  updated_time : Int
  user_created_time : Int
  user_updated_time : Int
  deleted_time : Int
deriving DecidableEq, Repr

/-- A row of the `notes` table; `body` is kept as its UTF-8 bytes. -/
structure NoteRow where
  id : String
  title : String
  parent_id : String
  body : List Nat
  created_time : Int
  updated_time : Int
  user_created_time : Int
  user_updated_time : Int
  deleted_time : Int
deriving DecidableEq, Repr

/-- The SQLite database: the two tables the system touches. -/
structure Store where
  folders : List FolderRow
  notes : List NoteRow
deriving DecidableEq, Repr

/-- `WHERE parent_id = ?1 AND title = ?2 AND deleted_time = 0` on `folders`. -/
def folderMatches (pid title : String) (r : FolderRow) : Bool :=
  r.parent_id = pid && r.title = title && r.deleted_time = 0

/-- `WHERE parent_id = ?1 AND title = ?2 AND deleted_time = 0` on `notes`. -/
def noteMatches (pid title : String) (r : NoteRow) : Bool :=
  r.parent_id = pid && r.title = title && r.deleted_time = 0

/-- `ORDER BY user_updated_time DESC LIMIT 1`: the row with the greatest
key.  SQLite breaks ties arbitrarily; the model keeps the first such row. -/
def selectLatest {ρ : Type} (key : ρ → Int) : List ρ → Option ρ
  | [] => none
  | r :: rs => some (rs.foldl (fun best x => if key best < key x then x else best) r)

/-- `SELECT ... FROM folders WHERE parent_id AND title AND deleted_time = 0
ORDER BY user_updated_time DESC LIMIT 1`. -/
def find_folder (s : Store) (pid title : String) : Option FolderRow :=
  selectLatest (fun r => r.user_updated_time) (s.folders.filter (folderMatches pid title))

/-- Same query shape against `notes`. -/
def find_note (s : Store) (pid title : String) : Option NoteRow :=
  selectLatest (fun r => r.user_updated_time) (s.notes.filter (noteMatches pid title))

/-- `SELECT COUNT(*) FROM folders WHERE parent_id = ?1 AND deleted_time = 0`. -/
def countChildFolders (s : Store) (pid : String) : Nat :=
  (s.folders.filter (fun r => r.parent_id = pid && r.deleted_time = 0)).length

/-- `SELECT COUNT(*) FROM notes WHERE parent_id = ?1 AND deleted_time = 0`. -/
def countChildNotes (s : Store) (pid : String) : Nat :=
  (s.notes.filter (fun r => r.parent_id = pid && r.deleted_time = 0)).length

/-- Insert `x` into a list sorted descending by `key`, after all entries
whose key is ≥ its own. -/
def insertDescBy {ρ : Type} (key : ρ → Int) (x : ρ) : List ρ → List ρ
  | [] => [x]
  | y :: ys => if key x ≤ key y then y :: insertDescBy key x ys else x :: y :: ys

/-- Sort descending by `key` (models `ORDER BY user_updated_time DESC`). -/
def sortDescBy {ρ : Type} (key : ρ → Int) : List ρ → List ρ
  | [] => []
  | y :: ys => insertDescBy key y (sortDescBy key ys)

/-- `SELECT id, title FROM folders WHERE parent_id = ?1 AND deleted_time = 0
ORDER BY user_updated_time DESC`, projected to titles. -/
def listFolderTitles (s : Store) (pid : String) : List String :=
  (sortDescBy (fun r => r.user_updated_time)
    (s.folders.filter (fun r => r.parent_id = pid && r.deleted_time = 0))).map (fun r => r.title)

/-- Same listing against `notes`. -/
def listNoteTitles (s : Store) (pid : String) : List String :=
  (sortDescBy (fun r => r.user_updated_time)
    (s.notes.filter (fun r => r.parent_id = pid && r.deleted_time = 0))).map (fun r => r.title)

/-- `UPDATE notes SET body=?1, updated_time=?2, user_updated_time=?3 WHERE
parent_id=?4 AND title=?5 AND deleted_time=0`.  Returns the updated store
and the number of affected rows. -/
def updateNotesBody (s : Store) (pid title : String) (body : List Nat) (now : Int) :
    Store × Nat :=
  ({ s with notes := s.notes.map (fun r =>
      if noteMatches pid title r then
        { r with body := body, updated_time := now, user_updated_time := now }
      else r) },
   (s.notes.filter (noteMatches pid title)).length)

/-- `UPDATE notes SET title=?1, parent_id=?2, user_updated_time=?3 WHERE
parent_id=?4 AND title=?5 AND deleted_time=0` (the rename query). -/
def renameNotesRows (s : Store) (newTitle newPid : String) (now : Int)
    (oldPid oldTitle : String) : Store × Nat :=
  ({ s with notes := s.notes.map (fun r =>
      if noteMatches oldPid oldTitle r then
        { r with title := newTitle, parent_id := newPid, user_updated_time := now }
      else r) },
   (s.notes.filter (noteMatches oldPid oldTitle)).length)

/-- The same rename query against `folders`. -/
def renameFoldersRows (s : Store) (newTitle newPid : String) (now : Int)
    (oldPid oldTitle : String) : Store × Nat :=
  ({ s with folders := s.folders.map (fun r =>
      if folderMatches oldPid oldTitle r then
        { r with title := newTitle, parent_id := newPid, user_updated_time := now }
      else r) },
   (s.folders.filter (folderMatches oldPid oldTitle)).length)

/-- `DELETE FROM notes WHERE id = (SELECT id ... ORDER BY user_updated_time
DESC LIMIT 1)`: delete the rows carrying the latest matching id. -/
def deleteNoteLatest (s : Store) (pid title : String) : Store × Nat :=
  match find_note s pid title with
  | none => (s, 0)
  | some row =>
    ({ s with notes := s.notes.filter (fun r => !(r.id = row.id)) },
     (s.notes.filter (fun r => r.id = row.id)).length)

/-- `DELETE FROM folders WHERE id = ?1`. -/
def deleteFolderById (s : Store) (fid : String) : Store × Nat :=
  ({ s with folders := s.folders.filter (fun r => !(r.id = fid)) },
   (s.folders.filter (fun r => r.id = fid)).length)

/-- `INSERT INTO folders ...` (appended, as SQLite does). -/
def insertFolderRow (s : Store) (r : FolderRow) : Store :=
  { s with folders := s.folders ++ [r] }

/-- `INSERT INTO notes ...`. -/
def insertNoteRow (s : Store) (r : NoteRow) : Store :=
  { s with notes := s.notes ++ [r] }

/-- First value bound to key `k` in an association list (HashMap `get`). -/
def assocFind {κ β : Type} [DecidableEq κ] : List (κ × β) → κ → Option β
  | [], _ => none
  | p :: ps, k => if p.1 = k then some p.2 else assocFind ps k

/-- HashMap `insert`: bind `k` to `v`, dropping any previous binding. -/
def assocInsert {κ β : Type} [DecidableEq κ] (l : List (κ × β)) (k : κ) (v : β) :
    List (κ × β) :=
  (k, v) :: l.filter (fun p => !(p.1 = k))

/-- HashMap `remove`. -/
def assocRemove {κ β : Type} [DecidableEq κ] (l : List (κ × β)) (k : κ) :
    List (κ × β) :=
  l.filter (fun p => !(p.1 = k))

/-- The filesystem driver state: store connection plus inode registry. -/
structure SqliteFS where
  db : Store
  inode_map : List (String × Nat)
  reverse_inode_map : List (Nat × String)
  next_inode : Nat
deriving DecidableEq, Repr

/-- `SqliteFS::new`: root path `"/"` gets inode 1, the counter starts at 2. -/
def SqliteFS.new (db : Store) : SqliteFS :=
  { db := db
    inode_map := [("/", 1)]
    reverse_inode_map := [(1, "/")]
    next_inode := 2 }

/-- `SqliteFS::get_or_create_inode`. -/
def get_or_create_inode (fs : SqliteFS) (path : String) : Nat × SqliteFS :=
  match assocFind fs.inode_map path with
  | some ino => (ino, fs)
  | none =>
    let ino := fs.next_inode
    (ino, { fs with
              next_inode := ino + 1
              inode_map := assocInsert fs.inode_map path ino
              reverse_inode_map := assocInsert fs.reverse_inode_map ino path })

/-- `SqliteFS::get_path_from_inode`. -/
def get_path_from_inode (fs : SqliteFS) (inode : Nat) : Option String :=
  assocFind fs.reverse_inode_map inode

/-- `str::trim_start_matches('/')`. -/
def dropLeadingSlashes (cs : List Char) : List Char :=
  cs.dropWhile (fun c => c = '/')

/-- `str::split('/')` on a character list. -/
def splitOnSlash : List Char → List (List Char)
  | [] => [[]]
  | c :: cs =>
    if c = '/' then [] :: splitOnSlash cs
    else
      match splitOnSlash cs with
      | [] => [[c]]
      | h :: t => (c :: h) :: t

/-- The fold inside `get_parent_folder_id`: walk components left to right,
skipping empty ones, resolving each against the `folders` table. -/
def resolveComponents (s : Store) : List (List Char) → String → Option String
  | [], cur => some cur
  | part :: parts, cur =>
    if part = [] then resolveComponents s parts cur
    else
      match find_folder s cur (String.mk part) with
      | some row => resolveComponents s parts row.id
      | none => none

/-- `SqliteFS::get_parent_folder_id`: `"/"` is the empty identifier, other
paths are walked through the folder table; a missing component fails
(`query_row` returns `Err`). -/
def get_parent_folder_id (s : Store) (parent_path : String) : Option String :=
  if parent_path = "/" then some ""
  else resolveComponents s (splitOnSlash (dropLeadingSlashes parent_path.data)) ""

/-- `format!("/{}", name)` / `format!("{}/{}", parent_path, name)`: the
full-path construction used by every upcall. -/
def joinPath (parent_path name : String) : String :=
  if parent_path = "/" then String.mk ('/' :: name.data)
  else String.mk (parent_path.data ++ '/' :: name.data)

/-- Index of the last `'/'` in `cs` (`str::rfind('/')`). -/
def lastSlashIdx (cs : List Char) : Option Nat :=
  match cs.reverse.findIdx? (fun c => c = '/') with
  | some k => some (cs.length - 1 - k)
  | none => none

/-- The `(parent_path, filename)` split used by `getattr`, `read`, `write`,
`open` and `setattr`: split at the last `'/'`; an empty parent becomes
`"/"`; without any `'/'` the parent is `"/"` and the name the whole path. -/
def splitParentName (path : String) : String × String :=
  match lastSlashIdx path.data with
  | some pos =>
    let parent := path.data.take pos
    let name := path.data.drop (pos + 1)
    (if parent = [] then "/" else String.mk parent, String.mk name)
  | none => ("/", path)

/-- Errno `ENOENT`. -/
def ENOENT : Nat := 2
/-- Errno `EIO` (named apart from the core monad of the same name). -/
def EIOCode : Nat := 5
/-- Errno `EINVAL`. -/
def EINVAL : Nat := 22
/-- Errno `ENOTEMPTY`. -/
def ENOTEMPTY : Nat := 39

/-- `fuser::FileType` (the two kinds this system produces). -/
inductive FileType where
  | directory
  | regularFile
deriving DecidableEq, Repr

/-- `fuser::FileAttr`; timestamps are the seconds added to `UNIX_EPOCH`. -/
structure FileAttr where
  ino : Nat
  size : Nat
  blocks : Nat
  atime : Int
  mtime : Int
  ctime : Int
  crtime : Int
  kind : FileType
  perm : Nat
  nlink : Nat
  uid : Nat
  gid : Nat
  rdev : Nat
  flags : Nat
  blksize : Nat
deriving DecidableEq, Repr

/-- The directory-attribute record every folder reply uses. -/
def folderAttr (ino : Nat) (created updated : Int) : FileAttr :=
  { ino := ino, size := 0, blocks := 0
    atime := created, mtime := updated, ctime := updated, crtime := created
    kind := .directory, perm := 0o755, nlink := 2, uid := 501, gid := 20
    rdev := 0, flags := 0, blksize := 512 }

/-- The regular-file-attribute record every note reply uses. -/
def noteAttr (ino : Nat) (bodyLen : Nat) (created updated : Int) : FileAttr :=
  { ino := ino, size := bodyLen, blocks := (bodyLen + 511) / 512
    atime := created, mtime := updated, ctime := updated, crtime := created
    kind := .regularFile, perm := 0o644, nlink := 1, uid := 501, gid := 20
    rdev := 0, flags := 0, blksize := 512 }

/-- One `readdir` entry. -/
structure DirEntry where
  ino : Nat
  kind : FileType
  name : String
deriving DecidableEq, Repr

/-- The reply sent back to the kernel bridge by an upcall. -/
inductive Reply where
  | entry (attr : FileAttr)
  | attr (attr : FileAttr)
  | created (attr : FileAttr) (fh : Nat)
  | data (bytes : List Nat)
  | written (n : Nat)
  | opened (fh : Nat)
  | ok
  | dir (entries : List DirEntry)
  | error (errno : Nat)
deriving DecidableEq, Repr

/-- Did the upcall reply with `reply.error(..)`? -/
def Reply.isError : Reply → Bool
  | .error _ => true
  | _ => false

/-- `SqliteFS::create_folder`: resolve the parent, insert a folder row with
all four timestamps at `now`.  The fresh UUID is a parameter.  `none`
models the `Err` the caller maps to `EIO`. -/
def create_folder (fs : SqliteFS) (parent_path folder_name folder_id : String)
    (now : Int) : Option Store :=
  match get_parent_folder_id fs.db parent_path with
  | none => none
  | some pid =>
    some (insertFolderRow fs.db
      { id := folder_id, title := folder_name, parent_id := pid
        created_time := now, updated_time := now
        user_created_time := now, user_updated_time := now, deleted_time := 0 })

/-- `SqliteFS::create_note`: like `create_folder` with the `.md` suffix
stripped from the title and the given initial body. -/
def create_note (fs : SqliteFS) (parent_path file_name note_id : String)
    (content : List Nat) (now : Int) : Option Store :=
  match get_parent_folder_id fs.db parent_path with
  | none => none
  | some pid =>
    some (insertNoteRow fs.db
      { id := note_id, title := strip_md_suffix file_name, parent_id := pid
        body := content, created_time := now, updated_time := now
        user_created_time := now, user_updated_time := now, deleted_time := 0 })

/-- Upcall `lookup(parent, name)`. -/
def SqliteFS.lookup (fs : SqliteFS) (parent : Nat) (name : Option String) :
    Reply × SqliteFS :=
  match name with
  | none => (.error ENOENT, fs)
  | some name_str =>
    match get_path_from_inode fs parent with
    | none => (.error ENOENT, fs)
    | some parent_path =>
      let full_path := joinPath parent_path name_str
      let folder_result :=
        match get_parent_folder_id fs.db parent_path with
        | some pid => find_folder fs.db pid name_str
        | none => none
      match folder_result with
      | some row =>
        let r := get_or_create_inode fs full_path
        (.entry (folderAttr r.1 row.created_time row.updated_time), r.2)
      | none =>
        let note_result :=
          match get_parent_folder_id fs.db parent_path with
          | some pid => find_note fs.db pid (strip_md_suffix name_str)
          | none => none
        match note_result with
        | some row =>
          let r := get_or_create_inode fs full_path
          (.entry (noteAttr r.1 row.body.length row.created_time row.updated_time), r.2)
        | none => (.error ENOENT, fs)

/-- Upcall `getattr(ino)`. -/
def SqliteFS.getattr (fs : SqliteFS) (ino : Nat) : Reply × SqliteFS :=
  if ino = 1 then (.attr (folderAttr 1 0 0), fs)
  else
    match get_path_from_inode fs ino with
    | none => (.error ENOENT, fs)
    | some path =>
      let pn := splitParentName path
      let folder_result :=
        match get_parent_folder_id fs.db pn.1 with
        | some pid => find_folder fs.db pid pn.2
        | none => none
      match folder_result with
      | some row => (.attr (folderAttr ino row.created_time row.updated_time), fs)
      | none =>
        let note_result :=
          match get_parent_folder_id fs.db pn.1 with
          | some pid => find_note fs.db pid (strip_md_suffix pn.2)
          | none => none
        match note_result with
        | some row =>
          (.attr (noteAttr ino row.body.length row.created_time row.updated_time), fs)
        | none => (.error ENOENT, fs)

/-- Upcall `read(ino, offset, size)`.  The source ignores `size` (its
parameter is `_size`) and replies with the whole remainder of the body. -/
def SqliteFS.read (fs : SqliteFS) (ino : Nat) (offset : Nat) (_size : Nat) :
    Reply × SqliteFS :=
  match get_path_from_inode fs ino with
  | none => (.error ENOENT, fs)
  | some path =>
    let pn := splitParentName path
    match get_parent_folder_id fs.db pn.1 with
    | none => (.error ENOENT, fs)
    | some pid =>
      match find_note fs.db pid (strip_md_suffix pn.2) with
      | none => (.error ENOENT, fs)
      | some row =>
        if offset < row.body.length then (.data (row.body.drop offset), fs)
        else (.data [], fs)

/-- The duplicate-name filter at the end of `readdir`: keep `"."`/`".."`
always, otherwise the first entry of each name. -/
def dedupEntries : List DirEntry → List String → List DirEntry
  | [], _ => []
  | e :: es, seen =>
    if e.name = "." || e.name = ".." then e :: dedupEntries es seen
    else if seen.contains e.name then dedupEntries es seen
    else e :: dedupEntries es (e.name :: seen)

/-- The child-interning loop of `readdir`: for each title, intern the
joined path of its display name and append the entry. -/
def readdirFold (path : String) (kind : FileType) (disp : String → String)
    (titles : List String) (start : List DirEntry × SqliteFS) :
    List DirEntry × SqliteFS :=
  titles.foldl (fun acc title =>
    let d := disp title
    let r := get_or_create_inode acc.2 (joinPath path d)
    (acc.1 ++ [⟨r.1, kind, d⟩], r.2)) start

/-- Upcall `readdir(ino, offset)`.  The reply buffer is modelled as
unbounded: every entry surviving deduplication and the offset skip is
emitted. -/
def SqliteFS.readdir (fs : SqliteFS) (ino : Nat) (offset : Nat) :
    Reply × SqliteFS :=
  match get_path_from_inode fs ino with
  | none => (.error ENOENT, fs)
  | some path =>
    match get_parent_folder_id fs.db path with
    | none => (.error ENOENT, fs)
    | some pid =>
      let start : List DirEntry × SqliteFS :=
        ([⟨ino, .directory, "."⟩, ⟨1, .directory, ".."⟩], fs)
      let afterFolders :=
        readdirFold path .directory (fun t => t) (listFolderTitles fs.db pid) start
      let afterNotes :=
        readdirFold path .regularFile add_md_suffix (listNoteTitles fs.db pid) afterFolders
      (.dir ((dedupEntries afterNotes.1 []).drop offset), afterNotes.2)

/-- Upcall `mkdir(parent, name)`; `folder_id` is the generated UUID and
`now` the wall clock.  A resolver failure inside `create_folder` surfaces
as `EIO` (the source maps any `create_folder` error to `EIO`). -/
def SqliteFS.mkdir (fs : SqliteFS) (parent : Nat) (name : Option String)
    (folder_id : String) (now : Int) : Reply × SqliteFS :=
  match name with
  | none => (.error EINVAL, fs)
  | some folder_name =>
    match get_path_from_inode fs parent with
    | none => (.error ENOENT, fs)
    | some parent_path =>
      match create_folder fs parent_path folder_name folder_id now with
      | none => (.error EIOCode, fs)
      | some db =>
        let full_path := joinPath parent_path folder_name
        let r := get_or_create_inode { fs with db := db } full_path
        (.entry (folderAttr r.1 now now), r.2)

/-- Upcall `create(parent, name)`: insert an empty note, reply with the
attributes and the new inode as file handle. -/
def SqliteFS.create (fs : SqliteFS) (parent : Nat) (name : Option String)
    (note_id : String) (now : Int) : Reply × SqliteFS :=
  match name with
  | none => (.error EINVAL, fs)
  | some file_name =>
    match get_path_from_inode fs parent with
    | none => (.error ENOENT, fs)
    | some parent_path =>
      match create_note fs parent_path file_name note_id [] now with
      | none => (.error EIOCode, fs)
      | some db =>
        let full_path := joinPath parent_path file_name
        let r := get_or_create_inode { fs with db := db } full_path
        (.created (noteAttr r.1 0 now now) r.1, r.2)

/-- The `// Handle the write operation` block of `write`: combine the
current body bytes with the incoming data, then re-encode through the
lossy conversion. -/
def writeNewContent (current : List Nat) (offset : Nat) (data : List Nat) : List Nat :=
  if offset = 0 then utf8Lossy data
  else
    let content_bytes := current
    let content_bytes :=
      if offset > content_bytes.length then
        content_bytes ++ List.replicate (offset - content_bytes.length) 0
      else content_bytes
    let content_bytes :=
      if offset + data.length ≤ content_bytes.length then
        content_bytes.take offset ++ data ++ content_bytes.drop (offset + data.length)
      else content_bytes.take offset ++ data
    utf8Lossy content_bytes

/-- Upcall `write(ino, offset, data)`: fetch the current body, combine it
with `data` exactly as the source does, store the lossy re-encoding, reply
with `data.len()`. -/
def SqliteFS.write (fs : SqliteFS) (ino : Nat) (offset : Nat)
    (data : List Nat) (now : Int) : Reply × SqliteFS :=
  match get_path_from_inode fs ino with
  | none => (.error ENOENT, fs)
  | some path =>
    let pn := splitParentName path
    match get_parent_folder_id fs.db pn.1 with
    | none => (.error ENOENT, fs)
    | some pid =>
      let db_title := strip_md_suffix pn.2
      match find_note fs.db pid db_title with
      | none => (.error ENOENT, fs)
      | some row =>
        let new_content := writeNewContent row.body offset data
        let upd := updateNotesBody fs.db pid db_title new_content now
        (.written data.length, { fs with db := upd.1 })

/-- Upcall `open(ino)` (named `openFile` because `open` is a Lean keyword):
verify the note exists, reply with the inode as handle. -/
def SqliteFS.openFile (fs : SqliteFS) (ino : Nat) : Reply × SqliteFS :=
  match get_path_from_inode fs ino with
  | none => (.error ENOENT, fs)
  | some path =>
    let pn := splitParentName path
    match get_parent_folder_id fs.db pn.1 with
    | none => (.error ENOENT, fs)
    | some pid =>
      if (find_note fs.db pid (strip_md_suffix pn.2)).isSome then (.opened ino, fs)
      else (.error ENOENT, fs)

/-- The closing query of `setattr`: re-read the row and build the reply
attributes (unsupplied `mode`/`uid`/`gid` fall back to the constants; the
`u16` cast of `mode` is the reduction modulo 2^16). -/
def setattrFinish (fs : SqliteFS) (ino : Nat) (pid db_title : String)
    (mode uid gid : Option Nat) : Reply × SqliteFS :=
  match find_note fs.db pid db_title with
  | none => (.error ENOENT, fs)
  | some row =>
    (.attr { ino := ino, size := row.body.length
             blocks := (row.body.length + 511) / 512
             atime := row.created_time, mtime := row.updated_time
             ctime := row.updated_time, crtime := row.created_time
             kind := .regularFile, perm := (mode.getD 0o644) % 65536
             nlink := 1, uid := uid.getD 501, gid := gid.getD 20
             rdev := 0, flags := 0, blksize := 512 }, fs)

/-- Upcall `setattr(ino, mode?, uid?, gid?, size?)`: a supplied size
truncates or zero-pads the body and persists it; the reply echoes the
freshly read row. -/
def SqliteFS.setattr (fs : SqliteFS) (ino : Nat) (mode uid gid : Option Nat)
    (size : Option Nat) (now : Int) : Reply × SqliteFS :=
  match get_path_from_inode fs ino with
  | none => (.error ENOENT, fs)
  | some path =>
    let pn := splitParentName path
    match get_parent_folder_id fs.db pn.1 with
    | none => (.error ENOENT, fs)
    | some pid =>
      let db_title := strip_md_suffix pn.2
      match size with
      | some new_size =>
        match find_note fs.db pid db_title with
        | none => (.error ENOENT, fs)
        | some row =>
          let content_bytes := row.body
          let content_bytes :=
            if new_size < content_bytes.length then content_bytes.take new_size
            else if new_size > content_bytes.length then
              content_bytes ++ List.replicate (new_size - content_bytes.length) 0
            else content_bytes
          let new_content := utf8Lossy content_bytes
          let upd := updateNotesBody fs.db pid db_title new_content now
          setattrFinish { fs with db := upd.1 } ino pid db_title mode uid gid
      | none => setattrFinish fs ino pid db_title mode uid gid

/-- Upcall `flush(ino)`: validate the inode, no other effect. -/
def SqliteFS.flush (fs : SqliteFS) (ino : Nat) : Reply × SqliteFS :=
  if (get_path_from_inode fs ino).isSome then (.ok, fs) else (.error ENOENT, fs)

/-- Upcall `release(ino)`: validate the inode, no other effect. -/
def SqliteFS.release (fs : SqliteFS) (ino : Nat) : Reply × SqliteFS :=
  if (get_path_from_inode fs ino).isSome then (.ok, fs) else (.error ENOENT, fs)

/-- `str::replacen(pat, rep, 1)`: replace the first occurrence of `pat`. -/
def replacenOnce (s pat rep : List Char) : List Char :=
  if pat.isPrefixOf s then rep ++ s.drop pat.length
  else
    match s with
    | [] => []
    | c :: cs => c :: replacenOnce cs pat rep

/-- The inode-registry rewrite of the folder branch of `rename`: collect
every entry whose path starts with `old_path` (plain string prefix), then
re-key each to `replacen(old_path, new_path, 1)` of its path, preserving
the inode number. -/
def renameRegistrySubtree (fs : SqliteFS) (old_path new_path : String) : SqliteFS :=
  (fs.inode_map.filter (fun p => old_path.data.isPrefixOf p.1.data)).foldl
    (fun acc p =>
      let ndp := String.mk (replacenOnce p.1.data old_path.data new_path.data)
      { acc with
          inode_map := assocInsert (assocRemove acc.inode_map p.1) ndp p.2
          reverse_inode_map := assocInsert acc.reverse_inode_map p.2 ndp })
    fs

/-- Upcall `rename(parent, name, newparent, newname)`: try the notes table
first (titles stripped of `.md`); if no row was affected, try the folders
table (unstripped names) and rewrite the registry subtree. -/
def SqliteFS.rename (fs : SqliteFS) (parent : Nat) (name : Option String)
    (newparent : Nat) (newname : Option String) (now : Int) : Reply × SqliteFS :=
  match name with
  | none => (.error EINVAL, fs)
  | some old_name =>
    match newname with
    | none => (.error EINVAL, fs)
    | some new_name =>
      match get_path_from_inode fs parent with
      | none => (.error ENOENT, fs)
      | some parent_path =>
        match get_path_from_inode fs newparent with
        | none => (.error ENOENT, fs)
        | some new_parent_path =>
          match get_parent_folder_id fs.db parent_path with
          | none => (.error ENOENT, fs)
          | some parent_folder_id =>
            match get_parent_folder_id fs.db new_parent_path with
            | none => (.error ENOENT, fs)
            | some new_parent_folder_id =>
              let old_title := strip_md_suffix old_name
              let new_title := strip_md_suffix new_name
              let fileUpd := renameNotesRows fs.db new_title new_parent_folder_id
                now parent_folder_id old_title
              if fileUpd.2 > 0 then
                let old_path := joinPath parent_path old_name
                let new_path := joinPath new_parent_path new_name
                let fs₁ := { fs with db := fileUpd.1 }
                let fs₂ :=
                  match assocFind fs₁.inode_map old_path with
                  | some inode =>
                    { fs₁ with
                        inode_map :=
                          assocInsert (assocRemove fs₁.inode_map old_path) new_path inode
                        reverse_inode_map :=
                          assocInsert fs₁.reverse_inode_map inode new_path }
                  | none => fs₁
                (.ok, fs₂)
              else
                let folderUpd := renameFoldersRows fileUpd.1 new_name
                  new_parent_folder_id now parent_folder_id old_name
                if folderUpd.2 > 0 then
                  let old_path := joinPath parent_path old_name
                  let new_path := joinPath new_parent_path new_name
                  let fs₁ := { fs with db := folderUpd.1 }
                  (.ok, renameRegistrySubtree fs₁ old_path new_path)
                else (.error ENOENT, { fs with db := folderUpd.1 })

/-- Upcall `unlink(parent, name)`: delete the latest matching note row,
then forget the path from the registry. -/
def SqliteFS.unlink (fs : SqliteFS) (parent : Nat) (name : Option String) :
    Reply × SqliteFS :=
  match name with
  | none => (.error EINVAL, fs)
  | some filename =>
    match get_path_from_inode fs parent with
    | none => (.error ENOENT, fs)
    | some parent_path =>
      match get_parent_folder_id fs.db parent_path with
      | none => (.error ENOENT, fs)
      | some parent_folder_id =>
        let title := strip_md_suffix filename
        let del := deleteNoteLatest fs.db parent_folder_id title
        if del.2 > 0 then
          let file_path := joinPath parent_path filename
          let fs₁ := { fs with db := del.1 }
          let fs₂ :=
            match assocFind fs₁.inode_map file_path with
            | some inode =>
              { fs₁ with
                  inode_map := assocRemove fs₁.inode_map file_path
                  reverse_inode_map := assocRemove fs₁.reverse_inode_map inode }
            | none => fs₁
          (.ok, fs₂)
        else (.error ENOENT, { fs with db := del.1 })

/-- Upcall `rmdir(parent, name)`: find the latest matching folder row,
refuse with `ENOTEMPTY` when it has undeleted children, otherwise delete
it by id and forget the path. -/
def SqliteFS.rmdir (fs : SqliteFS) (parent : Nat) (name : Option String) :
    Reply × SqliteFS :=
  match name with
  | none => (.error EINVAL, fs)
  | some dirname =>
    match get_path_from_inode fs parent with
    | none => (.error ENOENT, fs)
    | some parent_path =>
      match get_parent_folder_id fs.db parent_path with
      | none => (.error ENOENT, fs)
      | some parent_folder_id =>
        match find_folder fs.db parent_folder_id dirname with
        | none => (.error ENOENT, fs)
        | some row =>
          if countChildFolders fs.db row.id > 0 || countChildNotes fs.db row.id > 0 then
            (.error ENOTEMPTY, fs)
          else
            let del := deleteFolderById fs.db row.id
            if del.2 > 0 then
              let dir_path := joinPath parent_path dirname
              let fs₁ := { fs with db := del.1 }
              let fs₂ :=
                match assocFind fs₁.inode_map dir_path with
                | some inode =>
                  { fs₁ with
                      inode_map := assocRemove fs₁.inode_map dir_path
                      reverse_inode_map := assocRemove fs₁.reverse_inode_map inode }
                | none => fs₁
              (.ok, fs₂)
            else (.error ENOENT, { fs with db := del.1 })

/-- One kernel upcall together with its nondeterministic inputs (wall
clock, fresh UUIDs). -/
inductive Upcall where
  | lookup (parent : Nat) (name : Option String)
  | getattr (ino : Nat)
  | read (ino : Nat) (offset : Nat) (size : Nat)
  | readdir (ino : Nat) (offset : Nat)
  | mkdir (parent : Nat) (name : Option String) (uuid : String) (now : Int)
  | create (parent : Nat) (name : Option String) (uuid : String) (now : Int)
  | write (ino : Nat) (offset : Nat) (data : List Nat) (now : Int)
  | openFile (ino : Nat)
  | setattr (ino : Nat) (mode uid gid : Option Nat) (size : Option Nat) (now : Int)
  | flush (ino : Nat)
  | release (ino : Nat)
  | rename (parent : Nat) (name : Option String) (newparent : Nat)
      (newname : Option String) (now : Int)
  | unlink (parent : Nat) (name : Option String)
  | rmdir (parent : Nat) (name : Option String)
deriving DecidableEq, Repr

/-- Dispatch an upcall against the driver state. -/
def applyUpcall (fs : SqliteFS) : Upcall → Reply × SqliteFS
  | .lookup parent name => fs.lookup parent name
  | .getattr ino => fs.getattr ino
  | .read ino offset size => fs.read ino offset size
  | .readdir ino offset => fs.readdir ino offset
  | .mkdir parent name uuid now => fs.mkdir parent name uuid now
  | .create parent name uuid now => fs.create parent name uuid now
  | .write ino offset data now => fs.write ino offset data now
  | .openFile ino => fs.openFile ino
  | .setattr ino mode uid gid size now => fs.setattr ino mode uid gid size now
  | .flush ino => fs.flush ino
  | .release ino => fs.release ino
  | .rename parent name newparent newname now =>
    fs.rename parent name newparent newname now
  | .unlink parent name => fs.unlink parent name
  | .rmdir parent name => fs.rmdir parent name

/-- The kernel bridge never delivers an empty file name; upcalls carrying
names are assumed well-formed in that respect. -/
def ValidUpcall : Upcall → Prop
  | .lookup _ name => ∀ s, name = some s → s ≠ ""
  | .mkdir _ name _ _ => ∀ s, name = some s → s ≠ ""
  | .create _ name _ _ => ∀ s, name = some s → s ≠ ""
  | .rename _ name _ newname _ =>
    (∀ s, name = some s → s ≠ "") ∧ (∀ s, newname = some s → s ≠ "")
  | .unlink _ name => ∀ s, name = some s → s ≠ ""
  | .rmdir _ name => ∀ s, name = some s → s ≠ ""
  | _ => True

/-- The write combination rule exactly as the specification words it: full
overwrite at offset 0; zero-pad then append past the end; splice when the
data fits; otherwise truncate at the offset and append. -/
def claimSplice (B : List Nat) (offset : Nat) (data : List Nat) : List Nat :=
  if offset = 0 then data
  else if offset > B.length then B ++ List.replicate (offset - B.length) 0 ++ data
  else if offset + data.length ≤ B.length then
    B.take offset ++ data ++ B.drop (offset + data.length)
  else B.take offset ++ data

/-- The registry part of the driver state obeys the registry invariants:
root mappings installed, keys unduplicated, issued inodes below the
counter, and inode 1 owned by `"/"` alone. -/
def RegInv (fs : SqliteFS) : Prop :=
  assocFind fs.inode_map "/" = some 1 ∧
  assocFind fs.reverse_inode_map 1 = some "/" ∧
  (fs.inode_map.map Prod.fst).Nodup ∧
  2 ≤ fs.next_inode ∧
  (∀ x ∈ fs.inode_map, x.2 < fs.next_inode) ∧
  (∀ x ∈ fs.inode_map, x.2 = 1 → x.1 = "/")

instance (fs : SqliteFS) : Decidable (RegInv fs) := by
  unfold RegInv
  exact inferInstance

/-- An empty store. -/
def emptyStore : Store := { folders := [], notes := [] }

/-- A single live note `a` under the root with body `"hi"`. -/
def sampleNote : NoteRow :=
  { id := "n1", title := "a", parent_id := "", body := [104, 105]
    created_time := 1, updated_time := 2, user_created_time := 1
    user_updated_time := 10, deleted_time := 0 }

/-- Driver state over `sampleNote` with `/a.md` already interned as inode 2. -/
def sampleFS : SqliteFS :=
  { db := { folders := [], notes := [sampleNote] }
    inode_map := [("/", 1), ("/a.md", 2)]
    reverse_inode_map := [(1, "/"), (2, "/a.md")]
    next_inode := 3 }

/-- The older of two duplicate notes titled `a` under the root. -/
def dupNoteOld : NoteRow :=
  { id := "n1", title := "a", parent_id := "", body := [120]
    created_time := 1, updated_time := 1, user_created_time := 1
    user_updated_time := 10, deleted_time := 0 }

/-- The newer of two duplicate notes titled `a` under the root. -/
def dupNoteNew : NoteRow :=
  { id := "n2", title := "a", parent_id := "", body := [121]
    created_time := 2, updated_time := 2, user_created_time := 2
    user_updated_time := 20, deleted_time := 0 }

/-- Driver state with two undeleted duplicates of `(parent, title)`. -/
def dupFS : SqliteFS :=
  { db := { folders := [], notes := [dupNoteOld, dupNoteNew] }
    inode_map := [("/", 1), ("/a.md", 2)]
    reverse_inode_map := [(1, "/"), (2, "/a.md")]
    next_inode := 3 }

/-- A live folder `A` under the root. -/
def folderA : FolderRow :=
  { id := "fa", title := "A", parent_id := ""
    created_time := 1, updated_time := 1, user_created_time := 1
    user_updated_time := 1, deleted_time := 0 }

/-- A live folder `AB` under the root (sibling of `A` whose name has `A`
as a string prefix). -/
def folderAB : FolderRow :=
  { id := "fab", title := "AB", parent_id := ""
    created_time := 1, updated_time := 1, user_created_time := 1
    user_updated_time := 1, deleted_time := 0 }

/-- Driver state with both `/A` and `/AB` interned. -/
def prefixFS : SqliteFS :=
  { db := { folders := [folderA, folderAB], notes := [] }
    inode_map := [("/", 1), ("/A", 2), ("/AB", 3)]
    reverse_inode_map := [(1, "/"), (2, "/A"), (3, "/AB")]
    next_inode := 4 }

/-- A live folder `Empty` (id `fe`) under the root, with no children. -/
def folderEmpty : FolderRow :=
  { id := "fe", title := "Empty", parent_id := ""
    created_time := 1, updated_time := 1, user_created_time := 1
    user_updated_time := 1, deleted_time := 0 }

/-- A live folder `Documents` (id `fd`) under the root. -/
def folderDocs : FolderRow :=
  { id := "fd", title := "Documents", parent_id := ""
    created_time := 1, updated_time := 1, user_created_time := 1
    user_updated_time := 1, deleted_time := 0 }

/-- A live note inside `Documents`. -/
def childNote : NoteRow :=
  { id := "nc", title := "doc", parent_id := "fd", body := []
    created_time := 1, updated_time := 1, user_created_time := 1
    user_updated_time := 1, deleted_time := 0 }

/-- Driver state with an empty folder and a populated folder. -/
def rmdirFS : SqliteFS :=
  { db := { folders := [folderEmpty, folderDocs], notes := [childNote] }
    inode_map := [("/", 1), ("/Empty", 2), ("/Documents", 3)]
    reverse_inode_map := [(1, "/"), (2, "/Empty"), (3, "/Documents")]
    next_inode := 4 }

/-- A live folder `X` under the root and no notes at all. -/
def folderX : FolderRow :=
  { id := "fx", title := "X", parent_id := ""
    created_time := 1, updated_time := 1, user_created_time := 1
    user_updated_time := 1, deleted_time := 0 }

/-- Driver state whose root contains only the folder `X`. -/
def folderOnlyFS : SqliteFS :=
  { db := { folders := [folderX], notes := [] }
    inode_map := [("/", 1)]
    reverse_inode_map := [(1, "/")]
    next_inode := 2 }


theorem assocFind_filter_ne {κ β : Type} [DecidableEq κ] (l : List (κ × β)) (k q : κ)
    (h : q ≠ k) :
    assocFind (l.filter (fun p => !(p.1 = k))) q = assocFind l q := by
  induction l with
  | nil => rfl
  | cons hd tl ih =>
    by_cases hk : hd.1 = k
    · have h1 : (!decide (hd.1 = k)) = false := by simp [hk]
      have h2 : hd.1 ≠ q := fun hq => h (by rw [← hq, hk])
      simp only [List.filter_cons, h1, if_false, Bool.false_eq_true]
      simp only [assocFind, if_neg h2]
      exact ih
    · have h1 : (!decide (hd.1 = k)) = true := by simp [hk]
      simp only [List.filter_cons, h1, if_true]
      by_cases hq : hd.1 = q
      · simp only [assocFind, if_pos hq]
      · simp only [assocFind, if_neg hq]
        exact ih

theorem assocFind_insert {κ β : Type} [DecidableEq κ] (l : List (κ × β)) (k q : κ) (v : β) :
    assocFind (assocInsert l k v) q = if q = k then some v else assocFind l q := by
  unfold assocInsert
  by_cases hqk : q = k
  · simp [assocFind, hqk]
  · have : k ≠ q := fun h => hqk h.symm
    simp only [assocFind, this, if_neg, if_neg hqk]
    exact assocFind_filter_ne l k q hqk

theorem assocFind_remove {κ β : Type} [DecidableEq κ] (l : List (κ × β)) (k q : κ) :
    assocFind (assocRemove l k) q = if q = k then none else assocFind l q := by
  unfold assocRemove
  by_cases hqk : q = k
  · subst hqk
    simp only [if_pos rfl]
    induction l with
    | nil => rfl
    | cons hd tl ih =>
      by_cases hk : hd.1 = q
      · have h1 : (!decide (hd.1 = q)) = false := by simp [hk]
        simp [List.filter_cons, h1, ih]
      · have h1 : (!decide (hd.1 = q)) = true := by simp [hk]
        simp [List.filter_cons, h1, assocFind, hk, ih]
  · rw [if_neg hqk]
    exact assocFind_filter_ne l k q hqk

theorem assocFind_mem {κ β : Type} [DecidableEq κ] {l : List (κ × β)} {k : κ} {v : β}
    (h : assocFind l k = some v) : (k, v) ∈ l := by
  induction l with
  | nil => simp [assocFind] at h
  | cons hd tl ih =>
    by_cases hk : hd.1 = k
    · simp only [assocFind, if_pos hk, Option.some.injEq] at h
      rw [List.mem_cons]
      left
      cases hd
      simp_all
    · simp only [assocFind, if_neg hk] at h
      exact List.mem_cons_of_mem _ (ih h)

theorem assocFind_eq_some_of_mem {κ β : Type} [DecidableEq κ] {l : List (κ × β)} {k : κ} {v : β}
    (hnodup : (l.map Prod.fst).Nodup) (hmem : (k, v) ∈ l) :
    assocFind l k = some v := by
  induction l with
  | nil => simp at hmem
  | cons hd tl ih =>
    simp only [List.map_cons, List.nodup_cons] at hnodup
    rcases List.mem_cons.mp hmem with heq | htl
    · rw [← heq]
      simp [assocFind]
    · have hne : hd.1 ≠ k := by
        intro h
        exact hnodup.1 (h ▸ (List.mem_map.mpr ⟨(k, v), htl, rfl⟩))
      simp only [assocFind, if_neg hne]
      exact ih hnodup.2 htl

theorem mem_assocInsert {κ β : Type} [DecidableEq κ] {l : List (κ × β)} {k : κ} {v : β}
    {p : κ × β} :
    p ∈ assocInsert l k v ↔ p = (k, v) ∨ (p ∈ l ∧ p.1 ≠ k) := by
  unfold assocInsert
  simp only [List.mem_cons, List.mem_filter, Bool.not_eq_true', decide_eq_false_iff_not]

theorem mem_assocRemove {κ β : Type} [DecidableEq κ] {l : List (κ × β)} {k : κ}
    {p : κ × β} :
    p ∈ assocRemove l k ↔ p ∈ l ∧ p.1 ≠ k := by
  unfold assocRemove
  simp only [List.mem_filter, Bool.not_eq_true', decide_eq_false_iff_not]

theorem nodupKeys_assocInsert {κ β : Type} [DecidableEq κ] {l : List (κ × β)} (k : κ) (v : β)
    (h : (l.map Prod.fst).Nodup) :
    ((assocInsert l k v).map Prod.fst).Nodup := by
  unfold assocInsert
  simp only [List.map_cons, List.nodup_cons]
  constructor
  · intro hmem
    rcases List.mem_map.mp hmem with ⟨p, hp, hpk⟩
    rcases List.mem_filter.mp hp with ⟨_, hne⟩
    simp only [Bool.not_eq_true', decide_eq_false_iff_not] at hne
    exact hne hpk
  · exact (List.Sublist.map Prod.fst (List.filter_sublist l)).nodup h

theorem nodupKeys_assocRemove {κ β : Type} [DecidableEq κ] {l : List (κ × β)} (k : κ)
    (h : (l.map Prod.fst).Nodup) :
    ((assocRemove l k).map Prod.fst).Nodup :=
  (List.Sublist.map Prod.fst (List.filter_sublist l)).nodup h

theorem foldl_pick_mem {ρ : Type} (key : ρ → Int) :
    ∀ (tl : List ρ) (b : ρ),
      tl.foldl (fun best x => if key best < key x then x else best) b ∈ b :: tl := by
  intro tl
  induction tl with
  | nil => intro b; simp
  | cons x xs ih =>
    intro b
    simp only [List.foldl_cons]
    by_cases h : key b < key x
    · rw [if_pos h]
      exact List.mem_cons_of_mem b (ih x)
    · rw [if_neg h]
      rcases List.mem_cons.mp (ih b) with hb | hxs
      · exact List.mem_cons.mpr (Or.inl hb)
      · exact List.mem_cons_of_mem b (List.mem_cons_of_mem x hxs)

theorem selectLatest_mem {ρ : Type} (key : ρ → Int) {l : List ρ} {r : ρ}
    (h : selectLatest key l = some r) : r ∈ l := by
  cases l with
  | nil => simp [selectLatest] at h
  | cons hd tl =>
    simp only [selectLatest, Option.some.injEq] at h
    exact h ▸ foldl_pick_mem key tl hd

theorem selectLatest_isSome {ρ : Type} (key : ρ → Int) {l : List ρ} (h : l ≠ []) :
    (selectLatest key l).isSome = true := by
  cases l with
  | nil => exact absurd rfl h
  | cons hd tl => simp [selectLatest]

theorem find_note_mem {s : Store} {pid title : String} {r : NoteRow}
    (h : find_note s pid title = some r) :
    r ∈ s.notes ∧ noteMatches pid title r = true := by
  have hmem := selectLatest_mem _ h
  exact ⟨List.mem_of_mem_filter hmem, (List.mem_filter.mp hmem).2⟩

theorem find_folder_mem {s : Store} {pid title : String} {r : FolderRow}
    (h : find_folder s pid title = some r) :
    r ∈ s.folders ∧ folderMatches pid title r = true := by
  have hmem := selectLatest_mem _ h
  exact ⟨List.mem_of_mem_filter hmem, (List.mem_filter.mp hmem).2⟩

theorem noteMatches_update (pid title : String) (body : List Nat) (now : Int) (r : NoteRow) :
    noteMatches pid title
      (if noteMatches pid title r then
        { r with body := body, updated_time := now, user_updated_time := now }
      else r) = noteMatches pid title r := by
  by_cases h : noteMatches pid title r
  · rw [if_pos h, h]
    unfold noteMatches at *
    simpa using h
  · rw [if_neg h]

/-- After `updateNotesBody` the set of matching rows is the image of the
matching rows before, so a hit stays a hit. -/
theorem find_note_after_update {s : Store} {pid title : String} {row : NoteRow}
    (body : List Nat) (now : Int)
    (h : find_note s pid title = some row) :
    (find_note (updateNotesBody s pid title body now).1 pid title).isSome = true := by
  apply selectLatest_isSome
  intro hnil
  rw [List.filter_eq_nil_iff] at hnil
  have hmem := find_note_mem h
  have hmem2 : (if noteMatches pid title row then
      { row with body := body, updated_time := now, user_updated_time := now }
    else row) ∈ (updateNotesBody s pid title body now).1.notes := by
    unfold updateNotesBody
    simp only
    exact List.mem_map.mpr ⟨row, hmem.1, rfl⟩
  have := hnil _ hmem2
  rw [noteMatches_update] at this
  exact this hmem.2

theorem renameNotesRows_zero {s : Store} {newTitle newPid : String} {now : Int}
    {oldPid oldTitle : String}
    (h : (renameNotesRows s newTitle newPid now oldPid oldTitle).2 = 0) :
    (renameNotesRows s newTitle newPid now oldPid oldTitle).1 = s := by
  unfold renameNotesRows at h ⊢
  simp only [List.length_eq_zero, List.filter_eq_nil_iff] at h
  have hmap : s.notes.map (fun r =>
      if noteMatches oldPid oldTitle r then
        { r with title := newTitle, parent_id := newPid, user_updated_time := now }
      else r) = s.notes := by
    conv_rhs => rw [← List.map_id s.notes]
    apply List.map_congr_left
    intro a ha
    simp only [id]
    rw [if_neg]
    exact fun hm => (h a ha) hm
  simp only [hmap]

theorem renameFoldersRows_zero {s : Store} {newTitle newPid : String} {now : Int}
    {oldPid oldTitle : String}
    (h : (renameFoldersRows s newTitle newPid now oldPid oldTitle).2 = 0) :
    (renameFoldersRows s newTitle newPid now oldPid oldTitle).1 = s := by
  unfold renameFoldersRows at h ⊢
  simp only [List.length_eq_zero, List.filter_eq_nil_iff] at h
  have hmap : s.folders.map (fun r =>
      if folderMatches oldPid oldTitle r then
        { r with title := newTitle, parent_id := newPid, user_updated_time := now }
      else r) = s.folders := by
    conv_rhs => rw [← List.map_id s.folders]
    apply List.map_congr_left
    intro a ha
    simp only [id]
    rw [if_neg]
    exact fun hm => (h a ha) hm
  simp only [hmap]

theorem deleteNoteLatest_zero {s : Store} {pid title : String}
    (h : (deleteNoteLatest s pid title).2 = 0) :
    (deleteNoteLatest s pid title).1 = s := by
  unfold deleteNoteLatest at h ⊢
  cases hfind : find_note s pid title with
  | none => rfl
  | some row =>
    rw [hfind] at h
    simp only [List.length_eq_zero, List.filter_eq_nil_iff] at h
    exact absurd (by simp : (decide (row.id = row.id)) = true)
      (h row (find_note_mem hfind).1)

theorem deleteFolderById_zero {s : Store} {fid : String}
    (h : (deleteFolderById s fid).2 = 0) :
    (deleteFolderById s fid).1 = s := by
  unfold deleteFolderById at h ⊢
  simp only [List.length_eq_zero, List.filter_eq_nil_iff] at h
  have hmap : s.folders.filter (fun r => !(r.id = fid)) = s.folders := by
    rw [List.filter_eq_self]
    intro a ha
    simpa using h a ha
  simp only [hmap]

theorem endsWithMd_true_iff (s : String) :
    endsWithMd s = true ↔ 3 ≤ s.data.length ∧ s.data.drop (s.data.length - 3) = mdChars := by
  unfold endsWithMd
  simp [Bool.and_eq_true, decide_eq_true_eq]

theorem endsWithMd_append_md (l : List Char) :
    endsWithMd (String.mk (l ++ mdChars)) = true := by
  rw [endsWithMd_true_iff]
  constructor
  · simp [mdChars]
  · have : (l ++ mdChars).length - 3 = l.length := by simp [mdChars]
    rw [this]
    have h3 : l.length = (l ++ mdChars).length - mdChars.length := by simp
    calc (l ++ mdChars).drop l.length = mdChars := List.drop_left l mdChars

/-- C7, amended: `to_user_name ∘ to_store_title` returns the name or the
name with `".md"` appended, except when the name ends in `".md.md"` (then
stripping removes one suffix and appending restores none); and
`to_store_title ∘ to_user_name` is the identity on titles that do not
already end in `".md"`. -/
theorem name_codec_roundtrips :
    (∀ name : String,
      ¬(endsWithMd name = true ∧ endsWithMd (strip_md_suffix name) = true) →
      add_md_suffix (strip_md_suffix name) = name ∨
      add_md_suffix (strip_md_suffix name) = String.mk (name.data ++ mdChars)) ∧
    (∀ t : String, endsWithMd t = false → strip_md_suffix (add_md_suffix t) = t) := by
  constructor
  · intro name h
    by_cases he : endsWithMd name = true
    · left
      have hs : endsWithMd (strip_md_suffix name) = false := by
        cases hval : endsWithMd (strip_md_suffix name) with
        | true => exact absurd ⟨he, hval⟩ h
        | false => rfl
      unfold add_md_suffix
      rw [hs]
      simp only [Bool.false_eq_true, if_false]
      unfold strip_md_suffix
      rw [he]
      simp only [if_true]
      apply String.ext
      simp only
      rcases (endsWithMd_true_iff name).mp he with ⟨_, hdrop⟩
      conv_rhs => rw [← List.take_append_drop (name.data.length - 3) name.data]
      rw [hdrop]
    · right
      have hne : endsWithMd name = false := by
        cases hval : endsWithMd name with
        | true => exact absurd hval he
        | false => rfl
      unfold strip_md_suffix add_md_suffix
      simp [hne]
  · intro t ht
    unfold add_md_suffix
    rw [ht]
    simp only [Bool.false_eq_true, if_false]
    unfold strip_md_suffix
    rw [endsWithMd_append_md]
    simp only [if_true]
    apply String.ext
    simp only
    have hlen : (t.data ++ mdChars).length - 3 = t.data.length := by simp [mdChars]
    rw [hlen]
    exact List.take_left t.data mdChars

/-- C7 witness: the amended round trips at the concrete name `x.txt` and
title `x`. -/
theorem name_codec_roundtrips_witness :
    (add_md_suffix (strip_md_suffix "x.txt") = "x.txt" ∨
      add_md_suffix (strip_md_suffix "x.txt") = String.mk ("x.txt".data ++ mdChars)) ∧
    strip_md_suffix (add_md_suffix "x") = "x" :=
  ⟨name_codec_roundtrips.1 "x.txt" (by decide),
   name_codec_roundtrips.2 "x" (by decide)⟩

/-- C7 counterexample: `to_store_title (to_user_name "a.md")` is `"a"`, not
`"a.md"`, refuting the claimed identity `to_store_title ∘ to_user_name = id`. -/
theorem name_codec_cex :
    strip_md_suffix (add_md_suffix "a.md") = "a" ∧ ("a" : String) ≠ "a.md" := by
  constructor <;> decide

/-- C8, amended: a non-UTF-8 name makes `mkdir`, `create`, `rename` (either
name), `unlink` and `rmdir` reply `EINVAL`, while `lookup` replies
`ENOENT`. -/
theorem nonUtf8_name_errnos (fs : SqliteFS) (p np : Nat) (u : String) (now : Int)
    (s : String) :
    fs.mkdir p none u now = (Reply.error EINVAL, fs) ∧
    fs.create p none u now = (Reply.error EINVAL, fs) ∧
    fs.rename p none np (some s) now = (Reply.error EINVAL, fs) ∧
    fs.rename p (some s) np none now = (Reply.error EINVAL, fs) ∧
    fs.unlink p none = (Reply.error EINVAL, fs) ∧
    fs.rmdir p none = (Reply.error EINVAL, fs) ∧
    fs.lookup p none = (Reply.error ENOENT, fs) :=
  ⟨rfl, rfl, rfl, rfl, rfl, rfl, rfl⟩

/-- C8 counterexample: `lookup` with a non-UTF-8 name replies `ENOENT`
(errno 2), not `EINVAL` (errno 22). -/
theorem lookup_nonUtf8_enoent_cex :
    (sampleFS.lookup 1 none).1 = Reply.error ENOENT ∧ ENOENT ≠ EINVAL := by
  constructor <;> decide

/-- C2, amended: `read` on an existing note replies the whole remainder of
the body from `offset` (empty bytes when `offset ≥ len`); the `size`
argument is ignored, so the reply may exceed `size` bytes. -/
theorem read_returns_remainder (fs : SqliteFS) (ino offset size : Nat)
    (path pid : String) (row : NoteRow)
    (hpath : get_path_from_inode fs ino = some path)
    (hpid : get_parent_folder_id fs.db (splitParentName path).1 = some pid)
    (hrow : find_note fs.db pid (strip_md_suffix (splitParentName path).2) = some row) :
    fs.read ino offset size =
      (Reply.data (if offset < row.body.length then row.body.drop offset else []), fs) := by
  simp only [SqliteFS.read, hpath, hpid, hrow]
  split <;> simp_all

/-- C2 witness: reading `sampleNote` at `offset = 2 = len(body)` replies
empty bytes through the amended theorem. -/
theorem read_returns_remainder_witness :
    get_path_from_inode sampleFS 2 = some "/a.md" ∧
    sampleFS.read 2 2 7 =
      (Reply.data (if 2 < sampleNote.body.length then sampleNote.body.drop 2 else []),
       sampleFS) :=
  ⟨by decide,
   read_returns_remainder sampleFS 2 2 7 "/a.md" "" sampleNote
     (by decide) (by decide) (by decide)⟩

/-- C2 counterexample: `read(ino, 0, size=1)` on the two-byte body `"hi"`
replies both bytes — more than `size` — because the source never uses
`size`. -/
theorem read_ignores_size_cex :
    (sampleFS.read 2 0 1).1 = Reply.data [104, 105] ∧
    ¬(([104, 105] : List Nat).length ≤ 1) := by
  constructor <;> decide

/-- C10: `unlink` only ever deletes from the notes table: the folders
table survives every `unlink` unchanged, and when no undeleted note
matches the stripped name the call fails with `ENOENT` leaving the whole
state (folders, notes and registry) untouched — even if a folder of that
name exists. -/
theorem unlink_touches_only_notes :
    (∀ (fs : SqliteFS) (parent : Nat) (name : Option String),
      (SqliteFS.unlink fs parent name).2.db.folders = fs.db.folders) ∧
    (∀ (fs : SqliteFS) (parent : Nat) (filename pp pid : String),
      get_path_from_inode fs parent = some pp →
      get_parent_folder_id fs.db pp = some pid →
      find_note fs.db pid (strip_md_suffix filename) = none →
      fs.unlink parent (some filename) = (Reply.error ENOENT, fs)) := by
  constructor
  · intro fs parent name
    unfold SqliteFS.unlink deleteNoteLatest
    dsimp only
    repeat' split
    all_goals rfl
  · intro fs parent filename pp pid hpp hpid hfind
    simp only [SqliteFS.unlink, hpp, hpid, deleteNoteLatest, hfind]
    simp

/-- C10 witness: with only the folder `X` under the root, `unlink(root,
"X")` fails with `ENOENT` and changes nothing. -/
theorem unlink_touches_only_notes_witness :
    get_path_from_inode folderOnlyFS 1 = some "/" ∧
    find_note folderOnlyFS.db "" (strip_md_suffix "X") = none ∧
    folderOnlyFS.unlink 1 (some "X") = (Reply.error ENOENT, folderOnlyFS) :=
  ⟨by decide, by decide,
   unlink_touches_only_notes.2 folderOnlyFS 1 "X" "/" ""
     (by decide) (by decide) (by decide)⟩

theorem writeNewContent_eq_claimSplice (B data : List Nat) (offset : Nat) :
    writeNewContent B offset data = utf8Lossy (claimSplice B offset data) := by
  unfold writeNewContent claimSplice
  by_cases h0 : offset = 0
  · simp [h0]
  · simp only [if_neg h0]
    by_cases hbig : offset > B.length
    · simp only [if_pos hbig]
      have hlen : (B ++ List.replicate (offset - B.length) 0).length = offset := by
        simp only [List.length_append, List.length_replicate]
        omega
      by_cases hdl : data.length = 0
      · have hd : data = [] := List.length_eq_zero.mp hdl
        subst hd
        have hcond : offset + ([] : List Nat).length ≤
            (B ++ List.replicate (offset - B.length) 0).length := by
          simp [hlen]
        rw [if_pos hcond]
        rw [List.take_of_length_le (le_of_eq hlen)]
        rw [List.drop_eq_nil_of_le (by simp [hlen] : (B ++ List.replicate (offset - B.length) 0).length ≤ offset + ([] : List Nat).length)]
        simp
      · have hcond : ¬(offset + data.length ≤
            (B ++ List.replicate (offset - B.length) 0).length) := by
          rw [hlen]
          omega
        rw [if_neg hcond]
        rw [List.take_of_length_le (le_of_eq hlen)]
    · simp only [if_neg hbig]

/-- C1, amended: a `write` on an existing note replies `len(data)` bytes
written and persists (into every matching row) the UTF-8-lossy re-encoding
of the byte string the claim describes: `data` at offset 0, the zero-padded
body plus `data` past the end, the in-place splice when the data fits, and
the truncation plus append otherwise. -/
theorem write_splice_lossy (fs : SqliteFS) (ino offset : Nat) (data : List Nat)
    (now : Int) (path pid : String) (row : NoteRow)
    (hpath : get_path_from_inode fs ino = some path)
    (hpid : get_parent_folder_id fs.db (splitParentName path).1 = some pid)
    (hrow : find_note fs.db pid (strip_md_suffix (splitParentName path).2) = some row) :
    fs.write ino offset data now =
      (Reply.written data.length,
       { fs with db := (updateNotesBody fs.db pid
           (strip_md_suffix (splitParentName path).2)
           (utf8Lossy (claimSplice row.body offset data)) now).1 }) := by
  simp only [SqliteFS.write, hpath, hpid, hrow, writeNewContent_eq_claimSplice]

/-- C1 witness: a one-byte splice into `sampleNote` at offset 1 through the
amended theorem. -/
theorem write_splice_lossy_witness :
    get_path_from_inode sampleFS 2 = some "/a.md" ∧
    sampleFS.write 2 1 [120] 50 =
      (Reply.written ([120] : List Nat).length,
       { sampleFS with db := (updateNotesBody sampleFS.db ""
           (strip_md_suffix (splitParentName "/a.md").2)
           (utf8Lossy (claimSplice sampleNote.body 1 [120])) 50).1 }) :=
  ⟨by decide,
   write_splice_lossy sampleFS 2 1 [120] 50 "/a.md" "" sampleNote
     (by decide) (by decide) (by decide)⟩

/-- C1 counterexample: `write(ino, 0, [0xFF])` persists the replacement
character `EF BF BD`, not the byte `FF`, because the body passes through
`String::from_utf8_lossy`; the persisted body is not "exactly data". -/
theorem write_lossy_cex :
    (sampleFS.write 2 0 [0xFF] 50).1 = Reply.written 1 ∧
    find_note (sampleFS.write 2 0 [0xFF] 50).2.db "" "a" =
      some { sampleNote with body := [0xEF, 0xBF, 0xBD], updated_time := 50, user_updated_time := 50 } ∧
    ([0xEF, 0xBF, 0xBD] : List Nat) ≠ [0xFF] := by
  refine ⟨by decide, by decide, by decide⟩

/-- C3, amended: a successful `write` updates every undeleted row matching
`(parent_id, title)` — there is one new body value written, with both
timestamps set to now, into each matching row — and rows that do not match
are unchanged (position for position). -/
theorem write_updates_all_duplicates (fs : SqliteFS) (ino offset : Nat)
    (data : List Nat) (now : Int) (path pid : String) (row : NoteRow)
    (hpath : get_path_from_inode fs ino = some path)
    (hpid : get_parent_folder_id fs.db (splitParentName path).1 = some pid)
    (hrow : find_note fs.db pid (strip_md_suffix (splitParentName path).2) = some row) :
    (fs.write ino offset data now).1 = Reply.written data.length ∧
    ∃ nb : List Nat, ∀ (k : Nat) (r : NoteRow), fs.db.notes.get? k = some r →
      (fs.write ino offset data now).2.db.notes.get? k =
        some (if noteMatches pid (strip_md_suffix (splitParentName path).2) r then
                { r with body := nb, updated_time := now, user_updated_time := now }
              else r) := by
  constructor
  · simp only [SqliteFS.write, hpath, hpid, hrow]
  · simp only [SqliteFS.write, hpath, hpid, hrow]
    refine ⟨writeNewContent row.body offset data, fun k r hk => ?_⟩
    unfold updateNotesBody
    simp only
    rw [List.get?_map, hk]
    rfl

/-- C3 witness: with two duplicates of `(root, "a")`, the amended theorem
applied at a concrete overwrite. -/
theorem write_updates_all_duplicates_witness :
    get_path_from_inode dupFS 2 = some "/a.md" ∧
    (dupFS.write 2 0 [104] 50).1 = Reply.written ([104] : List Nat).length ∧
    (∃ nb : List Nat, ∀ (k : Nat) (r : NoteRow), dupFS.db.notes.get? k = some r →
      (dupFS.write 2 0 [104] 50).2.db.notes.get? k =
        some (if noteMatches "" (strip_md_suffix (splitParentName "/a.md").2) r then
                { r with body := nb, updated_time := 50, user_updated_time := 50 }
              else r)) :=
  ⟨by decide,
   (write_updates_all_duplicates dupFS 2 0 [104] 50 "/a.md" "" dupNoteNew
     (by decide) (by decide) (by decide)).1,
   (write_updates_all_duplicates dupFS 2 0 [104] 50 "/a.md" "" dupNoteNew
     (by decide) (by decide) (by decide)).2⟩

/-- C3 counterexample: the write also rewrites the duplicate with the
smaller `user_updated_time` (the row `n1`), whose body and timestamps the
claim says must stay unchanged. -/
theorem write_duplicates_cex :
    dupNoteOld.user_updated_time < dupNoteNew.user_updated_time ∧
    (dupFS.write 2 0 [104] 50).2.db.notes.get? 0 =
      some { dupNoteOld with body := [104], updated_time := 50, user_updated_time := 50 } ∧
    dupNoteOld.body ≠ [104] := by
  refine ⟨by decide, by decide, by decide⟩

/-- C5: with the parent resolved and the target folder row found, `rmdir`
succeeds exactly when the folder has zero undeleted child folders and zero
undeleted child notes.  On success the folder row is deleted by its id,
the notes table is untouched and the path is forgotten from the registry;
with any undeleted child it replies `ENOTEMPTY` and changes nothing. -/
theorem rmdir_empty_iff (fs : SqliteFS) (parent : Nat) (dirname pp pid : String)
    (row : FolderRow)
    (hpp : get_path_from_inode fs parent = some pp)
    (hpid : get_parent_folder_id fs.db pp = some pid)
    (hrow : find_folder fs.db pid dirname = some row) :
    (countChildFolders fs.db row.id = 0 ∧ countChildNotes fs.db row.id = 0 →
      (fs.rmdir parent (some dirname)).1 = Reply.ok ∧
      (fs.rmdir parent (some dirname)).2.db.folders =
        fs.db.folders.filter (fun r => !(r.id = row.id)) ∧
      (fs.rmdir parent (some dirname)).2.db.notes = fs.db.notes ∧
      assocFind (fs.rmdir parent (some dirname)).2.inode_map (joinPath pp dirname) = none ∧
      (∀ q, q ≠ joinPath pp dirname →
        assocFind (fs.rmdir parent (some dirname)).2.inode_map q =
          assocFind fs.inode_map q)) ∧
    (0 < countChildFolders fs.db row.id ∨ 0 < countChildNotes fs.db row.id →
      fs.rmdir parent (some dirname) = (Reply.error ENOTEMPTY, fs)) := by
  constructor
  · rintro ⟨hcf, hcn⟩
    have hempty : (countChildFolders fs.db row.id > 0 ||
        countChildNotes fs.db row.id > 0) = false := by
      simp [hcf, hcn]
    have hmem : row ∈ fs.db.folders.filter (fun r => decide (r.id = row.id)) :=
      List.mem_filter.mpr ⟨(find_folder_mem hrow).1, by simp⟩
    have hpos : 0 < (fs.db.folders.filter (fun r => decide (r.id = row.id))).length :=
      List.length_pos.mpr (List.ne_nil_of_mem hmem)
    simp only [SqliteFS.rmdir, hpp, hpid, hrow, hempty, deleteFolderById,
      Bool.false_eq_true, if_false]
    rw [if_pos hpos]
    refine ⟨rfl, ?_, ?_, ?_, ?_⟩
    · cases hfind : assocFind fs.inode_map (joinPath pp dirname) <;> simp [hfind]
    · cases hfind : assocFind fs.inode_map (joinPath pp dirname) <;> simp [hfind]
    · cases hfind : assocFind fs.inode_map (joinPath pp dirname) with
      | none => simp [hfind]
      | some ino =>
        simp only [hfind]
        rw [assocFind_remove]
        simp
    · intro q hq
      cases hfind : assocFind fs.inode_map (joinPath pp dirname) with
      | none => simp [hfind]
      | some ino =>
        simp only [hfind]
        rw [assocFind_remove]
        rw [if_neg hq]
  · intro hne
    have hfull : (countChildFolders fs.db row.id > 0 ||
        countChildNotes fs.db row.id > 0) = true := by
      rcases hne with h | h <;> simp [h]
    simp only [SqliteFS.rmdir, hpp, hpid, hrow, hfull, if_true]

/-- C5 witness: `rmdir(root, "Empty")` succeeds on the childless folder
`fe`, deleting its row and forgetting `/Empty`. -/
theorem rmdir_empty_iff_witness :
    countChildFolders rmdirFS.db "fe" = 0 ∧ countChildNotes rmdirFS.db "fe" = 0 ∧
    (rmdirFS.rmdir 1 (some "Empty")).1 = Reply.ok ∧
    assocFind (rmdirFS.rmdir 1 (some "Empty")).2.inode_map (joinPath "/" "Empty") = none :=
  ⟨by decide, by decide,
   ((rmdir_empty_iff rmdirFS 1 "Empty" "/" "" folderEmpty
     (by decide) (by decide) (by decide)).1 ⟨by decide, by decide⟩).1,
   ((rmdir_empty_iff rmdirFS 1 "Empty" "/" "" folderEmpty
     (by decide) (by decide) (by decide)).1 ⟨by decide, by decide⟩).2.2.2.1⟩

theorem lookup_err_frame (fs : SqliteFS) (p : Nat) (n : Option String) :
    (fs.lookup p n).1.isError = true → (fs.lookup p n).2 = fs := by
  unfold SqliteFS.lookup
  dsimp only
  repeat' split
  all_goals simp [Reply.isError]

theorem getattr_err_frame (fs : SqliteFS) (ino : Nat) :
    (fs.getattr ino).1.isError = true → (fs.getattr ino).2 = fs := by
  unfold SqliteFS.getattr
  dsimp only
  repeat' split
  all_goals simp [Reply.isError]

theorem read_err_frame (fs : SqliteFS) (ino offset size : Nat) :
    (fs.read ino offset size).1.isError = true → (fs.read ino offset size).2 = fs := by
  unfold SqliteFS.read
  dsimp only
  repeat' split
  all_goals simp [Reply.isError]

theorem readdir_err_frame (fs : SqliteFS) (ino offset : Nat) :
    (fs.readdir ino offset).1.isError = true → (fs.readdir ino offset).2 = fs := by
  unfold SqliteFS.readdir
  dsimp only
  repeat' split
  all_goals simp [Reply.isError]

theorem mkdir_err_frame (fs : SqliteFS) (p : Nat) (n : Option String) (u : String)
    (now : Int) :
    (fs.mkdir p n u now).1.isError = true → (fs.mkdir p n u now).2 = fs := by
  unfold SqliteFS.mkdir
  dsimp only
  repeat' split
  all_goals simp [Reply.isError]

theorem create_err_frame (fs : SqliteFS) (p : Nat) (n : Option String) (u : String)
    (now : Int) :
    (fs.create p n u now).1.isError = true → (fs.create p n u now).2 = fs := by
  unfold SqliteFS.create
  dsimp only
  repeat' split
  all_goals simp [Reply.isError]

theorem write_err_frame (fs : SqliteFS) (ino offset : Nat) (data : List Nat) (now : Int) :
    (fs.write ino offset data now).1.isError = true →
    (fs.write ino offset data now).2 = fs := by
  unfold SqliteFS.write
  dsimp only
  repeat' split
  all_goals simp [Reply.isError]

theorem openFile_err_frame (fs : SqliteFS) (ino : Nat) :
    (fs.openFile ino).1.isError = true → (fs.openFile ino).2 = fs := by
  unfold SqliteFS.openFile
  dsimp only
  repeat' split
  all_goals simp [Reply.isError]

theorem flush_err_frame (fs : SqliteFS) (ino : Nat) :
    (fs.flush ino).1.isError = true → (fs.flush ino).2 = fs := by
  unfold SqliteFS.flush
  repeat' split
  all_goals simp [Reply.isError]

theorem release_err_frame (fs : SqliteFS) (ino : Nat) :
    (fs.release ino).1.isError = true → (fs.release ino).2 = fs := by
  unfold SqliteFS.release
  repeat' split
  all_goals simp [Reply.isError]

theorem unlink_err_frame (fs : SqliteFS) (p : Nat) (n : Option String) :
    (fs.unlink p n).1.isError = true → (fs.unlink p n).2 = fs := by
  unfold SqliteFS.unlink
  dsimp only
  repeat' split
  all_goals intro h
  all_goals first
    | rfl
    | (rename_i hnpos
       rw [deleteNoteLatest_zero (Nat.eq_zero_of_not_pos hnpos)])
    | (exact absurd h (by simp [Reply.isError]))

theorem rmdir_err_frame (fs : SqliteFS) (p : Nat) (n : Option String) :
    (fs.rmdir p n).1.isError = true → (fs.rmdir p n).2 = fs := by
  unfold SqliteFS.rmdir
  dsimp only
  repeat' split
  all_goals intro h
  all_goals first
    | rfl
    | (rename_i hnpos
       rw [deleteFolderById_zero (Nat.eq_zero_of_not_pos hnpos)])
    | (exact absurd h (by simp [Reply.isError]))

theorem rename_err_frame (fs : SqliteFS) (p : Nat) (n : Option String) (np : Nat)
    (nn : Option String) (now : Int) :
    (fs.rename p n np nn now).1.isError = true → (fs.rename p n np nn now).2 = fs := by
  unfold SqliteFS.rename
  dsimp only
  repeat' split
  all_goals intro h
  all_goals first
    | rfl
    | (rename_i hnotes hfolders
       rw [renameNotesRows_zero (Nat.eq_zero_of_not_pos hnotes)] at hfolders ⊢
       rw [renameFoldersRows_zero (Nat.eq_zero_of_not_pos hfolders)])
    | (exact absurd h (by simp [Reply.isError]))

theorem find_note_after_update_ne_none {s : Store} {pid title : String} {row : NoteRow}
    (body : List Nat) (now : Int) (h : find_note s pid title = some row) :
    find_note (updateNotesBody s pid title body now).1 pid title ≠ none := by
  intro hn
  have hs := find_note_after_update body now h
  rw [hn] at hs
  simp at hs

theorem setattr_err_frame (fs : SqliteFS) (ino : Nat) (mode uid gid : Option Nat)
    (size : Option Nat) (now : Int) :
    (fs.setattr ino mode uid gid size now).1.isError = true →
    (fs.setattr ino mode uid gid size now).2 = fs := by
  unfold SqliteFS.setattr setattrFinish
  dsimp only
  repeat' split
  all_goals intro h
  all_goals first
    | rfl
    | (exact absurd
        (by assumption : find_note (updateNotesBody _ _ _ _ _).1 _ _ = none)
        (find_note_after_update_ne_none _ _ (by assumption)))
    | (exact absurd h (by simp [Reply.isError]))

/-- C6: whenever an upcall replies with an error code, the driver state —
the store (note bodies, timestamps, both tables) and the inode registry —
is exactly what it was before the call; registries are only touched on
success. -/
theorem error_reply_frame (fs : SqliteFS) (u : Upcall)
    (h : (applyUpcall fs u).1.isError = true) : (applyUpcall fs u).2 = fs := by
  cases u with
  | lookup p n => exact lookup_err_frame fs p n h
  | getattr ino => exact getattr_err_frame fs ino h
  | read ino offset size => exact read_err_frame fs ino offset size h
  | readdir ino offset => exact readdir_err_frame fs ino offset h
  | mkdir p n u now => exact mkdir_err_frame fs p n u now h
  | create p n u now => exact create_err_frame fs p n u now h
  | write ino offset data now => exact write_err_frame fs ino offset data now h
  | openFile ino => exact openFile_err_frame fs ino h
  | setattr ino mode uid gid size now =>
    exact setattr_err_frame fs ino mode uid gid size now h
  | flush ino => exact flush_err_frame fs ino h
  | release ino => exact release_err_frame fs ino h
  | rename p n np nn now => exact rename_err_frame fs p n np nn now h
  | unlink p n => exact unlink_err_frame fs p n h
  | rmdir p n => exact rmdir_err_frame fs p n h

/-- C6 witness: an `unlink` of a missing note errors with `ENOENT` and the
theorem yields the untouched state. -/
theorem error_reply_frame_witness :
    (applyUpcall sampleFS (Upcall.unlink 1 (some "zzz"))).1.isError = true ∧
    (applyUpcall sampleFS (Upcall.unlink 1 (some "zzz"))).2 = sampleFS :=
  ⟨by decide, error_reply_frame sampleFS (Upcall.unlink 1 (some "zzz")) (by decide)⟩

theorem isPrefixOf_exists {a b : List Char} :
    a.isPrefixOf b = true ↔ ∃ t, a ++ t = b := by
  rw [ List.isPrefixOf_iff_prefix]
  exact Iff.rfl

theorem replacenOnce_of_pre (s pat rep : List Char) (h : pat.isPrefixOf s = true) :
    replacenOnce s pat rep = rep ++ s.drop pat.length := by
  unfold replacenOnce
  rw [if_pos h]

theorem replacen_inj (old new : String) (a b : List Char)
    (ha : old.data.isPrefixOf a = true) (hb : old.data.isPrefixOf b = true)
    (heq : String.mk (replacenOnce a old.data new.data) =
           String.mk (replacenOnce b old.data new.data)) : a = b := by
  rw [replacenOnce_of_pre _ _ _ ha, replacenOnce_of_pre _ _ _ hb] at heq
  have h3 := List.append_cancel_left (congrArg String.data heq)
  rcases isPrefixOf_exists.mp ha with ⟨ta, hta⟩
  rcases isPrefixOf_exists.mp hb with ⟨tb, htb⟩
  rw [← hta, ← htb, List.drop_left, List.drop_left] at h3
  rw [← hta, ← htb, h3]

theorem subtree_fold_inode_map (old new : String) :
    ∀ (L : List (String × Nat)) (fs : SqliteFS),
    (L.foldl (fun acc p =>
      let ndp := String.mk (replacenOnce p.1.data old.data new.data)
      { acc with
          inode_map := assocInsert (assocRemove acc.inode_map p.1) ndp p.2
          reverse_inode_map := assocInsert acc.reverse_inode_map p.2 ndp }) fs).inode_map
    = L.foldl (fun m p => assocInsert (assocRemove m p.1)
        (String.mk (replacenOnce p.1.data old.data new.data)) p.2) fs.inode_map := by
  intro L
  induction L with
  | nil => intro fs; rfl
  | cons hd tl ih =>
    intro fs
    simp only [List.foldl_cons]
    exact ih _

theorem mapFold_frame (old new : String) :
    ∀ (L m : List (String × Nat)) (q : String),
    (∀ p ∈ L, p.1 ≠ q ∧ String.mk (replacenOnce p.1.data old.data new.data) ≠ q) →
    assocFind (L.foldl (fun m p => assocInsert (assocRemove m p.1)
        (String.mk (replacenOnce p.1.data old.data new.data)) p.2) m) q
      = assocFind m q := by
  intro L
  induction L with
  | nil => intro m q _; rfl
  | cons hd tl ih =>
    intro m q h
    simp only [List.foldl_cons]
    rw [ih _ q (fun p hp => h p (List.mem_cons_of_mem hd hp))]
    rw [assocFind_insert,
      if_neg (fun he => (h hd (List.mem_cons_self hd tl)).2 he.symm)]
    rw [assocFind_remove,
      if_neg (fun he => (h hd (List.mem_cons_self hd tl)).1 he.symm)]

theorem mapFold_gone (old new : String) :
    ∀ (L m : List (String × Nat)) (p₀ : String),
    p₀ ∈ L.map Prod.fst →
    (L.map Prod.fst).Nodup →
    (∀ p ∈ L, String.mk (replacenOnce p.1.data old.data new.data) ≠ p₀) →
    assocFind (L.foldl (fun m p => assocInsert (assocRemove m p.1)
        (String.mk (replacenOnce p.1.data old.data new.data)) p.2) m) p₀
      = none := by
  intro L
  induction L with
  | nil => intro m p₀ hmem _ _; simp at hmem
  | cons hd tl ih =>
    intro m p₀ hmem hnodup htgt
    simp only [List.map_cons, List.nodup_cons] at hnodup
    rcases List.mem_cons.mp hmem with hhd | htl
    · simp only [List.foldl_cons]
      rw [mapFold_frame old new tl _ p₀ ?_]
      · rw [assocFind_insert,
          if_neg (fun he => htgt hd (List.mem_cons_self hd tl) he.symm)]
        rw [assocFind_remove, if_pos hhd]
      · intro p hp
        refine ⟨fun he => hnodup.1 ?_, fun he => htgt p (List.mem_cons_of_mem hd hp) he⟩
        rw [← hhd, ← he]
        exact List.mem_map.mpr ⟨p, hp, rfl⟩
    · simp only [List.foldl_cons]
      exact ih _ p₀ htl hnodup.2 (fun p hp => htgt p (List.mem_cons_of_mem hd hp))

theorem mapFold_target (old new : String) :
    ∀ (L m : List (String × Nat)) (p₀ : String × Nat),
    p₀ ∈ L →
    (L.map Prod.fst).Nodup →
    (∀ p ∈ L, p.1 ≠ String.mk (replacenOnce p₀.1.data old.data new.data)) →
    (∀ p ∈ L, p.1 ≠ p₀.1 →
      String.mk (replacenOnce p.1.data old.data new.data) ≠
      String.mk (replacenOnce p₀.1.data old.data new.data)) →
    assocFind (L.foldl (fun m p => assocInsert (assocRemove m p.1)
        (String.mk (replacenOnce p.1.data old.data new.data)) p.2) m)
      (String.mk (replacenOnce p₀.1.data old.data new.data))
      = some p₀.2 := by
  intro L
  induction L with
  | nil => intro m p₀ hmem _ _ _; simp at hmem
  | cons hd tl ih =>
    intro m p₀ hmem hnodup hsrc htgt
    simp only [List.map_cons, List.nodup_cons] at hnodup
    by_cases hhd : hd = p₀
    · subst hhd
      simp only [List.foldl_cons]
      rw [mapFold_frame old new tl _ _ ?_]
      · rw [assocFind_insert, if_pos rfl]
      · intro p hp
        have hp1 : p.1 ≠ hd.1 := by
          intro he
          exact hnodup.1 (he ▸ List.mem_map.mpr ⟨p, hp, rfl⟩)
        exact ⟨fun he => hsrc p (List.mem_cons_of_mem hd hp) he,
               fun he => htgt p (List.mem_cons_of_mem hd hp) hp1 he⟩
    · have htl : p₀ ∈ tl := by
        rcases List.mem_cons.mp hmem with h | h
        · exact absurd h.symm hhd
        · exact h
      simp only [List.foldl_cons]
      exact ih _ p₀ htl hnodup.2
        (fun p hp => hsrc p (List.mem_cons_of_mem hd hp))
        (fun p hp => htgt p (List.mem_cons_of_mem hd hp))

theorem renameRegistrySubtree_inode_map (fs : SqliteFS) (op np : String) :
    (renameRegistrySubtree fs op np).inode_map
      = (fs.inode_map.filter (fun p => op.data.isPrefixOf p.1.data)).foldl
          (fun m p => assocInsert (assocRemove m p.1)
            (String.mk (replacenOnce p.1.data op.data np.data)) p.2) fs.inode_map := by
  unfold renameRegistrySubtree
  rw [subtree_fold_inode_map]

/-- C4, amended: a successful folder rename rewrites exactly the registry
entries whose path has `old_path` as a plain string prefix (including
siblings such as `/AB` when renaming `/A`): each such path becomes
`replacen(old_path, new_path, 1)` of itself with its inode preserved and
its old key removed; provided no rewritten path collides with an existing
key, every entry without the string prefix is unchanged. -/
theorem rename_subtree_prefix_rewrite
    (fs : SqliteFS) (parent newparent : Nat) (old_name new_name : String) (now : Int)
    (pp npp pid npid : String)
    (hpp : get_path_from_inode fs parent = some pp)
    (hnpp : get_path_from_inode fs newparent = some npp)
    (hpid : get_parent_folder_id fs.db pp = some pid)
    (hnpid : get_parent_folder_id fs.db npp = some npid)
    (hnotes : (renameNotesRows fs.db (strip_md_suffix new_name) npid now pid
        (strip_md_suffix old_name)).2 = 0)
    (hfolders : 0 < (renameFoldersRows (renameNotesRows fs.db (strip_md_suffix new_name)
        npid now pid (strip_md_suffix old_name)).1 new_name npid now pid old_name).2)
    (hnodup : (fs.inode_map.map Prod.fst).Nodup)
    (hfresh : ∀ p ∈ fs.inode_map,
      (joinPath pp old_name).data.isPrefixOf p.1.data = true →
      String.mk (replacenOnce p.1.data (joinPath pp old_name).data
        (joinPath npp new_name).data) ∉ fs.inode_map.map Prod.fst) :
    (fs.rename parent (some old_name) newparent (some new_name) now).1 = Reply.ok ∧
    (∀ p i, (p, i) ∈ fs.inode_map →
      (joinPath pp old_name).data.isPrefixOf p.data = true →
      assocFind (fs.rename parent (some old_name) newparent (some new_name) now).2.inode_map
        (String.mk (replacenOnce p.data (joinPath pp old_name).data
          (joinPath npp new_name).data)) = some i ∧
      assocFind (fs.rename parent (some old_name) newparent (some new_name) now).2.inode_map
        p = none) ∧
    (∀ q : String,
      (joinPath pp old_name).data.isPrefixOf q.data = false →
      (∀ p ∈ fs.inode_map,
        (joinPath pp old_name).data.isPrefixOf p.1.data = true →
        String.mk (replacenOnce p.1.data (joinPath pp old_name).data
          (joinPath npp new_name).data) ≠ q) →
      assocFind (fs.rename parent (some old_name) newparent (some new_name) now).2.inode_map q
        = assocFind fs.inode_map q) := by
  have hres : fs.rename parent (some old_name) newparent (some new_name) now =
      (Reply.ok, renameRegistrySubtree
        { fs with db := (renameFoldersRows (renameNotesRows fs.db
            (strip_md_suffix new_name) npid now pid (strip_md_suffix old_name)).1
            new_name npid now pid old_name).1 }
        (joinPath pp old_name) (joinPath npp new_name)) := by
    simp only [SqliteFS.rename, hpp, hnpp, hpid, hnpid, hnotes]
    rw [if_neg (by omega : ¬((0 : Nat) > 0))]
    rw [if_pos hfolders]
  rw [hres]
  simp only [renameRegistrySubtree_inode_map]
  have hLnodup : (((fs.inode_map.filter
      (fun p => (joinPath pp old_name).data.isPrefixOf p.1.data)).map Prod.fst)).Nodup :=
    (List.Sublist.map Prod.fst (List.filter_sublist fs.inode_map)).nodup hnodup
  refine ⟨trivial, ?_, ?_⟩
  · intro p i hmem hpre
    have hmemL : (p, i) ∈ fs.inode_map.filter
        (fun p => (joinPath pp old_name).data.isPrefixOf p.1.data) :=
      List.mem_filter.mpr ⟨hmem, hpre⟩
    constructor
    · refine mapFold_target (joinPath pp old_name) (joinPath npp new_name) _
        fs.inode_map (p, i) hmemL hLnodup ?_ ?_
      · intro r hr he
        exact hfresh (p, i) hmem hpre
          (he ▸ List.mem_map.mpr ⟨r, List.mem_of_mem_filter hr, rfl⟩)
      · intro r hr hne he
        apply hne
        exact String.ext (replacen_inj (joinPath pp old_name) (joinPath npp new_name)
          r.1.data p.data ((List.mem_filter.mp hr).2) hpre he)
    · refine mapFold_gone (joinPath pp old_name) (joinPath npp new_name) _
        fs.inode_map p (List.mem_map.mpr ⟨(p, i), hmemL, rfl⟩) hLnodup ?_
      intro r hr he
      rcases List.mem_filter.mp hr with ⟨hrmem, hrpre⟩
      exact hfresh r hrmem hrpre (he.symm ▸ List.mem_map.mpr ⟨(p, i), hmem, rfl⟩)
  · intro q hqpre hqtgt
    apply mapFold_frame
    intro r hr
    rcases List.mem_filter.mp hr with ⟨hrmem, hrpre⟩
    constructor
    · intro he
      rw [he] at hrpre
      rw [hqpre] at hrpre
      cases hrpre
    · exact hqtgt r hrmem hrpre

theorem data_ne_nil_of_ne_empty {n : String} (h : n ≠ "") : n.data ≠ [] := by
  intro hd
  exact h (String.ext (hd.trans rfl))

theorem joinPath_two_le (pp n : String) (h : n ≠ "") :
    2 ≤ (joinPath pp n).data.length := by
  have hn : 1 ≤ n.data.length := by
    cases hnd : n.data with
    | nil => exact absurd hnd (data_ne_nil_of_ne_empty h)
    | cons c cs => simp
  unfold joinPath
  by_cases hpp : pp = "/"
  · rw [if_pos hpp]
    simp only [List.length_cons]
    omega
  · rw [if_neg hpp]
    simp only [List.length_append, List.length_cons]
    omega

theorem joinPath_ne_root (pp n : String) (h : n ≠ "") : joinPath pp n ≠ "/" := by
  intro he
  have h2 := joinPath_two_le pp n h
  rw [he] at h2
  simp at h2

theorem regInv_get_or_create (fs : SqliteFS) (path : String) (h : RegInv fs) :
    RegInv (get_or_create_inode fs path).2 ∧
    fs.next_inode ≤ (get_or_create_inode fs path).2.next_inode := by
  unfold get_or_create_inode
  cases hf : assocFind fs.inode_map path with
  | some ino => exact ⟨h, Nat.le_refl _⟩
  | none =>
    dsimp only
    obtain ⟨h1, h2, h3, h4, h5, h6⟩ := h
    have hpath : path ≠ "/" := by
      intro he
      rw [he, h1] at hf
      cases hf
    refine ⟨⟨?_, ?_, nodupKeys_assocInsert _ _ h3,
      (by omega : 2 ≤ fs.next_inode + 1), ?_, ?_⟩,
      (by omega : fs.next_inode ≤ fs.next_inode + 1)⟩
    · rw [assocFind_insert, if_neg (fun he => hpath he.symm)]
      exact h1
    · rw [assocFind_insert, if_neg (by omega : ¬(1 = fs.next_inode))]
      exact h2
    · intro x hx
      rcases mem_assocInsert.mp hx with he | ⟨hmem, _⟩
      · rw [he]
        simp only
        omega
      · exact Nat.lt_trans (h5 x hmem) (Nat.lt_succ_self _)
    · intro x hx hx1
      rcases mem_assocInsert.mp hx with he | ⟨hmem, _⟩
      · rw [he] at hx1
        simp only at hx1
        omega
      · exact h6 x hmem hx1

theorem regInv_forget (fs : SqliteFS) (path : String) (ino : Nat) (h : RegInv fs)
    (hfind : assocFind fs.inode_map path = some ino) (hpath : path ≠ "/") :
    RegInv { fs with inode_map := assocRemove fs.inode_map path
                     reverse_inode_map := assocRemove fs.reverse_inode_map ino } := by
  obtain ⟨h1, h2, h3, h4, h5, h6⟩ := h
  have hino : ino ≠ 1 := fun he => hpath (h6 (path, ino) (assocFind_mem hfind) he)
  refine ⟨?_, ?_, nodupKeys_assocRemove _ h3, h4, ?_, ?_⟩
  · rw [assocFind_remove, if_neg (fun he => hpath he.symm)]
    exact h1
  · rw [assocFind_remove, if_neg (fun he => hino he.symm)]
    exact h2
  · intro x hx
    exact h5 x (mem_assocRemove.mp hx).1
  · intro x hx
    exact h6 x (mem_assocRemove.mp hx).1

theorem regInv_move (fs : SqliteFS) (oldp newp : String) (ino : Nat) (h : RegInv fs)
    (hfind : assocFind fs.inode_map oldp = some ino) (hold : oldp ≠ "/")
    (hnew : newp ≠ "/") :
    RegInv { fs with
      inode_map := assocInsert (assocRemove fs.inode_map oldp) newp ino
      reverse_inode_map := assocInsert fs.reverse_inode_map ino newp } := by
  obtain ⟨h1, h2, h3, h4, h5, h6⟩ := h
  have hino : ino ≠ 1 := fun he => hold (h6 (oldp, ino) (assocFind_mem hfind) he)
  have hbnd : ino < fs.next_inode := h5 (oldp, ino) (assocFind_mem hfind)
  refine ⟨?_, ?_, nodupKeys_assocInsert _ _ (nodupKeys_assocRemove _ h3), h4, ?_, ?_⟩
  · rw [assocFind_insert, if_neg (fun he => hnew he.symm)]
    rw [assocFind_remove, if_neg (fun he => hold he.symm)]
    exact h1
  · rw [assocFind_insert, if_neg (fun he => hino he.symm)]
    exact h2
  · intro x hx
    rcases mem_assocInsert.mp hx with he | ⟨hmem, _⟩
    · rw [he]
      exact hbnd
    · exact h5 x (mem_assocRemove.mp hmem).1
  · intro x hx hx1
    rcases mem_assocInsert.mp hx with he | ⟨hmem, _⟩
    · rw [he] at hx1
      simp only at hx1
      exact absurd hx1 hino
    · exact h6 x (mem_assocRemove.mp hmem).1 hx1

theorem replacen_two_le (a : List Char) (oldp newp : String)
    (hpre : oldp.data.isPrefixOf a = true) (hnew : 2 ≤ newp.data.length) :
    2 ≤ (String.mk (replacenOnce a oldp.data newp.data)).data.length := by
  rw [replacenOnce_of_pre _ _ _ hpre]
  simp only [List.length_append]
  omega

theorem mk_replacen_ne_root (a : List Char) (oldp newp : String)
    (hpre : oldp.data.isPrefixOf a = true) (hnew : 2 ≤ newp.data.length) :
    String.mk (replacenOnce a oldp.data newp.data) ≠ "/" := by
  intro he
  have h2 := replacen_two_le a oldp newp hpre hnew
  rw [he] at h2
  simp at h2

theorem pre_ne_root (a : List Char) (oldp : String)
    (hpre : oldp.data.isPrefixOf a = true) (hold : 2 ≤ oldp.data.length) :
    String.mk a ≠ "/" := by
  intro he
  rcases isPrefixOf_exists.mp hpre with ⟨t, ht⟩
  have hlen : 2 ≤ a.length := by
    rw [← ht]
    simp only [List.length_append]
    omega
  have := congrArg (fun s => s.data.length) he
  simp at this
  omega

theorem regInv_substep (acc : SqliteFS) (oldp newp : String) (pr : String × Nat)
    (h : RegInv acc) (hino1 : pr.2 ≠ 1) (hinoB : pr.2 < acc.next_inode)
    (hp : pr.1 ≠ "/") (hpre : oldp.data.isPrefixOf pr.1.data = true)
    (hnew : 2 ≤ newp.data.length) :
    RegInv { acc with
      inode_map := assocInsert (assocRemove acc.inode_map pr.1)
        (String.mk (replacenOnce pr.1.data oldp.data newp.data)) pr.2
      reverse_inode_map := assocInsert acc.reverse_inode_map pr.2
        (String.mk (replacenOnce pr.1.data oldp.data newp.data)) } := by
  obtain ⟨h1, h2, h3, h4, h5, h6⟩ := h
  have hndp := mk_replacen_ne_root pr.1.data oldp newp hpre hnew
  refine ⟨?_, ?_, nodupKeys_assocInsert _ _ (nodupKeys_assocRemove _ h3), h4, ?_, ?_⟩
  · rw [assocFind_insert, if_neg (fun he => hndp he.symm)]
    rw [assocFind_remove, if_neg (fun he => hp he.symm)]
    exact h1
  · rw [assocFind_insert, if_neg (fun he => hino1 he.symm)]
    exact h2
  · intro x hx
    rcases mem_assocInsert.mp hx with he | ⟨hmem, _⟩
    · rw [he]
      exact hinoB
    · exact h5 x (mem_assocRemove.mp hmem).1
  · intro x hx hx1
    rcases mem_assocInsert.mp hx with he | ⟨hmem, _⟩
    · rw [he] at hx1
      simp only at hx1
      exact absurd hx1 hino1
    · exact h6 x (mem_assocRemove.mp hmem).1 hx1

theorem regInv_subtree_fold (oldp newp : String) (hnew : 2 ≤ newp.data.length) :
    ∀ (L : List (String × Nat)) (acc : SqliteFS),
    RegInv acc →
    (∀ pr ∈ L, pr.2 ≠ 1 ∧ pr.2 < acc.next_inode ∧ pr.1 ≠ "/" ∧
      oldp.data.isPrefixOf pr.1.data = true) →
    RegInv (L.foldl (fun acc p =>
      let ndp := String.mk (replacenOnce p.1.data oldp.data newp.data)
      { acc with
          inode_map := assocInsert (assocRemove acc.inode_map p.1) ndp p.2
          reverse_inode_map := assocInsert acc.reverse_inode_map p.2 ndp }) acc) ∧
    (L.foldl (fun acc p =>
      let ndp := String.mk (replacenOnce p.1.data oldp.data newp.data)
      { acc with
          inode_map := assocInsert (assocRemove acc.inode_map p.1) ndp p.2
          reverse_inode_map := assocInsert acc.reverse_inode_map p.2 ndp }) acc).next_inode
      = acc.next_inode := by
  intro L
  induction L with
  | nil => intro acc h _; exact ⟨h, rfl⟩
  | cons hd tl ih =>
    intro acc h hL
    obtain ⟨hh1, hh2, hh3, hh4⟩ := hL hd (List.mem_cons_self hd tl)
    simp only [List.foldl_cons]
    have hstep := regInv_substep acc oldp newp hd h hh1 hh2 hh3 hh4 hnew
    exact ih _ hstep (fun pr hpr =>
      ⟨(hL pr (List.mem_cons_of_mem hd hpr)).1,
       (hL pr (List.mem_cons_of_mem hd hpr)).2.1,
       (hL pr (List.mem_cons_of_mem hd hpr)).2.2.1,
       (hL pr (List.mem_cons_of_mem hd hpr)).2.2.2⟩)

theorem regInv_renameRegistrySubtree (fs : SqliteFS) (oldp newp : String)
    (h : RegInv fs) (hold : 2 ≤ oldp.data.length) (hnew : 2 ≤ newp.data.length) :
    RegInv (renameRegistrySubtree fs oldp newp) ∧
    (renameRegistrySubtree fs oldp newp).next_inode = fs.next_inode := by
  unfold renameRegistrySubtree
  apply regInv_subtree_fold oldp newp hnew _ fs h
  intro pr hpr
  rcases List.mem_filter.mp hpr with ⟨hmem, hpre⟩
  obtain ⟨h1, h2, h3, h4, h5, h6⟩ := h
  have hp1 : pr.1 ≠ "/" := pre_ne_root pr.1.data oldp hpre hold
  exact ⟨fun he => hp1 (h6 pr hmem he), h5 pr hmem, hp1, hpre⟩

theorem regInv_readdirFold (path : String) (kind : FileType) (disp : String → String) :
    ∀ (titles : List String) (start : List DirEntry × SqliteFS), RegInv start.2 →
    RegInv (readdirFold path kind disp titles start).2 ∧
      start.2.next_inode ≤ (readdirFold path kind disp titles start).2.next_inode := by
  intro titles
  induction titles with
  | nil => intro s h; exact ⟨h, Nat.le_refl _⟩
  | cons t ts ih =>
    intro s h
    have hstep := regInv_get_or_create s.2 (joinPath path (disp t)) h
    have hcons : readdirFold path kind disp (t :: ts) s =
        readdirFold path kind disp ts
          (s.1 ++ [⟨(get_or_create_inode s.2 (joinPath path (disp t))).1, kind, disp t⟩],
           (get_or_create_inode s.2 (joinPath path (disp t))).2) := by
      unfold readdirFold
      rw [List.foldl_cons]
    rw [hcons]
    have hrec := ih (s.1 ++ [⟨(get_or_create_inode s.2 (joinPath path (disp t))).1,
        kind, disp t⟩], (get_or_create_inode s.2 (joinPath path (disp t))).2) hstep.1
    exact ⟨hrec.1, Nat.le_trans hstep.2 hrec.2⟩

theorem lookup_regInv (fs : SqliteFS) (p : Nat) (n : Option String) (h : RegInv fs) :
    RegInv (fs.lookup p n).2 ∧ fs.next_inode ≤ (fs.lookup p n).2.next_inode := by
  unfold SqliteFS.lookup
  dsimp only
  repeat' split
  all_goals first
    | exact ⟨h, Nat.le_refl _⟩
    | exact regInv_get_or_create fs _ h

theorem getattr_regInv (fs : SqliteFS) (ino : Nat) (h : RegInv fs) :
    RegInv (fs.getattr ino).2 ∧ fs.next_inode ≤ (fs.getattr ino).2.next_inode := by
  unfold SqliteFS.getattr
  dsimp only
  repeat' split
  all_goals exact ⟨h, Nat.le_refl _⟩

theorem read_regInv (fs : SqliteFS) (ino offset size : Nat) (h : RegInv fs) :
    RegInv (fs.read ino offset size).2 ∧
      fs.next_inode ≤ (fs.read ino offset size).2.next_inode := by
  unfold SqliteFS.read
  dsimp only
  repeat' split
  all_goals exact ⟨h, Nat.le_refl _⟩

theorem readdir_regInv (fs : SqliteFS) (ino offset : Nat) (h : RegInv fs) :
    RegInv (fs.readdir ino offset).2 ∧
      fs.next_inode ≤ (fs.readdir ino offset).2.next_inode := by
  unfold SqliteFS.readdir
  dsimp only
  repeat' split
  all_goals first
    | exact ⟨h, Nat.le_refl _⟩
    | (refine ⟨(regInv_readdirFold _ _ _ _ _
          (regInv_readdirFold _ _ _ _ _ h).1).1, ?_⟩
       refine Nat.le_trans ?_
         (regInv_readdirFold _ _ _ _ _ (regInv_readdirFold _ _ _ _ _ h).1).2
       show (([⟨ino, FileType.directory, "."⟩, ⟨1, FileType.directory, ".."⟩],
         fs) : List DirEntry × SqliteFS).2.next_inode ≤ _
       exact (regInv_readdirFold _ _ _ _ _ h).2)

theorem mkdir_regInv (fs : SqliteFS) (p : Nat) (n : Option String) (u : String)
    (now : Int) (h : RegInv fs) :
    RegInv (fs.mkdir p n u now).2 ∧ fs.next_inode ≤ (fs.mkdir p n u now).2.next_inode := by
  unfold SqliteFS.mkdir
  dsimp only
  repeat' split
  all_goals first
    | exact ⟨h, Nat.le_refl _⟩
    | exact regInv_get_or_create _ _ h

theorem create_regInv (fs : SqliteFS) (p : Nat) (n : Option String) (u : String)
    (now : Int) (h : RegInv fs) :
    RegInv (fs.create p n u now).2 ∧
      fs.next_inode ≤ (fs.create p n u now).2.next_inode := by
  unfold SqliteFS.create
  dsimp only
  repeat' split
  all_goals first
    | exact ⟨h, Nat.le_refl _⟩
    | exact regInv_get_or_create _ _ h

theorem write_regInv (fs : SqliteFS) (ino offset : Nat) (data : List Nat) (now : Int)
    (h : RegInv fs) :
    RegInv (fs.write ino offset data now).2 ∧
      fs.next_inode ≤ (fs.write ino offset data now).2.next_inode := by
  unfold SqliteFS.write
  dsimp only
  repeat' split
  all_goals exact ⟨h, Nat.le_refl _⟩

theorem openFile_regInv (fs : SqliteFS) (ino : Nat) (h : RegInv fs) :
    RegInv (fs.openFile ino).2 ∧ fs.next_inode ≤ (fs.openFile ino).2.next_inode := by
  unfold SqliteFS.openFile
  dsimp only
  repeat' split
  all_goals exact ⟨h, Nat.le_refl _⟩

theorem setattr_regInv (fs : SqliteFS) (ino : Nat) (mode uid gid : Option Nat)
    (size : Option Nat) (now : Int) (h : RegInv fs) :
    RegInv (fs.setattr ino mode uid gid size now).2 ∧
      fs.next_inode ≤ (fs.setattr ino mode uid gid size now).2.next_inode := by
  unfold SqliteFS.setattr setattrFinish
  dsimp only
  repeat' split
  all_goals exact ⟨h, Nat.le_refl _⟩

theorem flush_regInv (fs : SqliteFS) (ino : Nat) (h : RegInv fs) :
    RegInv (fs.flush ino).2 ∧ fs.next_inode ≤ (fs.flush ino).2.next_inode := by
  unfold SqliteFS.flush
  repeat' split
  all_goals exact ⟨h, Nat.le_refl _⟩

theorem release_regInv (fs : SqliteFS) (ino : Nat) (h : RegInv fs) :
    RegInv (fs.release ino).2 ∧ fs.next_inode ≤ (fs.release ino).2.next_inode := by
  unfold SqliteFS.release
  repeat' split
  all_goals exact ⟨h, Nat.le_refl _⟩

theorem unlink_regInv (fs : SqliteFS) (p : Nat) (n : Option String)
    (hv : ∀ s, n = some s → s ≠ "") (h : RegInv fs) :
    RegInv (fs.unlink p n).2 ∧ fs.next_inode ≤ (fs.unlink p n).2.next_inode := by
  unfold SqliteFS.unlink
  cases n with
  | none => exact ⟨h, Nat.le_refl _⟩
  | some filename =>
    have hfn : filename ≠ "" := hv filename rfl
    dsimp only
    cases hpp : get_path_from_inode fs p with
    | none => exact ⟨h, Nat.le_refl _⟩
    | some parent_path =>
      dsimp only
      cases hpid : get_parent_folder_id fs.db parent_path with
      | none => exact ⟨h, Nat.le_refl _⟩
      | some pid =>
        dsimp only
        split
        · split
          · rename_i inode hfind
            exact ⟨regInv_forget { fs with db := _ } _ inode h hfind
              (joinPath_ne_root parent_path filename hfn), Nat.le_refl _⟩
          · exact ⟨h, Nat.le_refl _⟩
        · exact ⟨h, Nat.le_refl _⟩

theorem rmdir_regInv (fs : SqliteFS) (p : Nat) (n : Option String)
    (hv : ∀ s, n = some s → s ≠ "") (h : RegInv fs) :
    RegInv (fs.rmdir p n).2 ∧ fs.next_inode ≤ (fs.rmdir p n).2.next_inode := by
  unfold SqliteFS.rmdir
  cases n with
  | none => exact ⟨h, Nat.le_refl _⟩
  | some dirname =>
    have hfn : dirname ≠ "" := hv dirname rfl
    dsimp only
    cases hpp : get_path_from_inode fs p with
    | none => exact ⟨h, Nat.le_refl _⟩
    | some parent_path =>
      dsimp only
      cases hpid : get_parent_folder_id fs.db parent_path with
      | none => exact ⟨h, Nat.le_refl _⟩
      | some pid =>
        dsimp only
        split
        · exact ⟨h, Nat.le_refl _⟩
        · rename_i row hrow
          split
          · exact ⟨h, Nat.le_refl _⟩
          · split
            · split
              · rename_i inode hfind
                exact ⟨regInv_forget { fs with db := _ } _ inode h hfind
                  (joinPath_ne_root parent_path dirname hfn), Nat.le_refl _⟩
              · exact ⟨h, Nat.le_refl _⟩
            · exact ⟨h, Nat.le_refl _⟩

theorem rename_regInv (fs : SqliteFS) (p : Nat) (n : Option String) (np : Nat)
    (nn : Option String) (now : Int)
    (hv : ∀ s, n = some s → s ≠ "") (hv2 : ∀ s, nn = some s → s ≠ "")
    (h : RegInv fs) :
    RegInv (fs.rename p n np nn now).2 ∧
      fs.next_inode ≤ (fs.rename p n np nn now).2.next_inode := by
  unfold SqliteFS.rename
  cases n with
  | none => exact ⟨h, Nat.le_refl _⟩
  | some old_name =>
    have hon : old_name ≠ "" := hv old_name rfl
    dsimp only
    cases nn with
    | none => exact ⟨h, Nat.le_refl _⟩
    | some new_name =>
      have hnn : new_name ≠ "" := hv2 new_name rfl
      dsimp only
      cases hpp : get_path_from_inode fs p with
      | none => exact ⟨h, Nat.le_refl _⟩
      | some parent_path =>
        dsimp only
        cases hnpp : get_path_from_inode fs np with
        | none => exact ⟨h, Nat.le_refl _⟩
        | some new_parent_path =>
          dsimp only
          cases hpid : get_parent_folder_id fs.db parent_path with
          | none => exact ⟨h, Nat.le_refl _⟩
          | some pid =>
            dsimp only
            cases hnpid : get_parent_folder_id fs.db new_parent_path with
            | none => exact ⟨h, Nat.le_refl _⟩
            | some npid =>
              dsimp only
              split
              · split
                · rename_i inode hfind
                  exact ⟨regInv_move { fs with db := _ } _ _ inode h hfind
                    (joinPath_ne_root parent_path old_name hon)
                    (joinPath_ne_root new_parent_path new_name hnn), Nat.le_refl _⟩
                · exact ⟨h, Nat.le_refl _⟩
              · split
                · have hsub := regInv_renameRegistrySubtree
                    { fs with db := (renameFoldersRows (renameNotesRows fs.db
                        (strip_md_suffix new_name) npid now pid
                        (strip_md_suffix old_name)).1 new_name npid now pid old_name).1 }
                    (joinPath parent_path old_name) (joinPath new_parent_path new_name)
                    h (joinPath_two_le parent_path old_name hon)
                    (joinPath_two_le new_parent_path new_name hnn)
                  exact ⟨hsub.1, le_of_le_of_eq (Nat.le_refl _) hsub.2.symm⟩
                · exact ⟨h, Nat.le_refl _⟩

/-- C9: the inode registry invariants.  At construction the root mapping is
installed; interning an already-mapped path is the identity; a fresh path
is assigned the current counter, which then strictly increases, and the
assigned number differs from every inode already issued; and every
well-formed upcall preserves the registry invariants (root `/` at inode 1
in both directions, no duplicate keys, all issued inodes below the
counter, inode 1 owned by `/` alone) while the counter never decreases. -/
theorem inode_registry_invariants :
    (∀ db : Store, RegInv (SqliteFS.new db)) ∧
    (∀ (fs : SqliteFS) (path : String) (i : Nat),
      assocFind fs.inode_map path = some i → get_or_create_inode fs path = (i, fs)) ∧
    (∀ (fs : SqliteFS) (path : String),
      assocFind fs.inode_map path = none →
      (get_or_create_inode fs path).1 = fs.next_inode ∧
      (get_or_create_inode fs path).2.next_inode = fs.next_inode + 1 ∧
      (RegInv fs → ∀ x ∈ fs.inode_map, x.2 ≠ (get_or_create_inode fs path).1)) ∧
    (∀ (fs : SqliteFS) (u : Upcall), ValidUpcall u → RegInv fs →
      RegInv (applyUpcall fs u).2 ∧
      fs.next_inode ≤ (applyUpcall fs u).2.next_inode ∧
      assocFind (applyUpcall fs u).2.inode_map "/" = some 1 ∧
      assocFind (applyUpcall fs u).2.reverse_inode_map 1 = some "/") := by
  refine ⟨?_, ?_, ?_, ?_⟩
  · intro db
    unfold SqliteFS.new
    refine ⟨rfl, rfl, by simp, (by omega : 2 ≤ 2), ?_, ?_⟩
    · intro x hx
      rcases List.mem_cons.mp hx with he | he
      · rw [he]
        exact Nat.one_lt_two
      · simp at he
    · intro x hx
      rcases List.mem_cons.mp hx with he | he
      · rw [he]
        intro _
        rfl
      · simp at he
  · intro fs path i hf
    unfold get_or_create_inode
    rw [hf]
  · intro fs path hf
    constructor
    · unfold get_or_create_inode
      rw [hf]
    · constructor
      · unfold get_or_create_inode
        rw [hf]
      · intro h x hx he
        have hbnd := h.2.2.2.2.1 x hx
        have : (get_or_create_inode fs path).1 = fs.next_inode := by
          unfold get_or_create_inode
          rw [hf]
        rw [this] at he
        omega
  · intro fs u hv h
    have hmain : RegInv (applyUpcall fs u).2 ∧
        fs.next_inode ≤ (applyUpcall fs u).2.next_inode := by
      cases u with
      | lookup p n => exact lookup_regInv fs p n h
      | getattr ino => exact getattr_regInv fs ino h
      | read ino offset size => exact read_regInv fs ino offset size h
      | readdir ino offset => exact readdir_regInv fs ino offset h
      | mkdir p n u now => exact mkdir_regInv fs p n u now h
      | create p n u now => exact create_regInv fs p n u now h
      | write ino offset data now => exact write_regInv fs ino offset data now h
      | openFile ino => exact openFile_regInv fs ino h
      | setattr ino mode uid gid size now =>
        exact setattr_regInv fs ino mode uid gid size now h
      | flush ino => exact flush_regInv fs ino h
      | release ino => exact release_regInv fs ino h
      | rename p n np nn now => exact rename_regInv fs p n np nn now hv.1 hv.2 h
      | unlink p n => exact unlink_regInv fs p n hv h
      | rmdir p n => exact rmdir_regInv fs p n hv h
    exact ⟨hmain.1, hmain.2, hmain.1.1, hmain.1.2.1⟩

/-- C9 witness: the invariants at the freshly constructed state, intern
idempotence and fresh allocation on `sampleFS`, and preservation across a
concrete `lookup` upcall. -/
theorem inode_registry_invariants_witness :
    RegInv (SqliteFS.new emptyStore) ∧
    get_or_create_inode sampleFS "/a.md" = (2, sampleFS) ∧
    (get_or_create_inode sampleFS "/b").1 = sampleFS.next_inode ∧
    RegInv (applyUpcall sampleFS (Upcall.lookup 1 (some "a.md"))).2 :=
  ⟨inode_registry_invariants.1 emptyStore,
   inode_registry_invariants.2.1 sampleFS "/a.md" 2 (by decide),
   (inode_registry_invariants.2.2.1 sampleFS "/b" (by decide)).1,
   (inode_registry_invariants.2.2.2 sampleFS (Upcall.lookup 1 (some "a.md"))
     (fun s hs => by cases hs; decide) (by decide)).1⟩

/-- C4 witness: renaming the folder `/A` to `/C` in `prefixFS` through the
amended theorem: the reply is ok, `/AB` is rewritten to `/CB` keeping
inode 3, and `/AB` itself is forgotten. -/
theorem rename_subtree_prefix_rewrite_witness :
    (prefixFS.rename 1 (some "A") 1 (some "C") 9).1 = Reply.ok ∧
    assocFind (prefixFS.rename 1 (some "A") 1 (some "C") 9).2.inode_map
      (String.mk (replacenOnce "/AB".data (joinPath "/" "A").data
        (joinPath "/" "C").data)) = some 3 ∧
    assocFind (prefixFS.rename 1 (some "A") 1 (some "C") 9).2.inode_map "/AB" = none :=
  ⟨(rename_subtree_prefix_rewrite prefixFS 1 1 "A" "C" 9 "/" "/" "" ""
      (by decide) (by decide) (by decide) (by decide) (by decide) (by decide)
      (by decide) (by decide)).1,
   ((rename_subtree_prefix_rewrite prefixFS 1 1 "A" "C" 9 "/" "/" "" ""
      (by decide) (by decide) (by decide) (by decide) (by decide) (by decide)
      (by decide) (by decide)).2.1 "/AB" 3 (by decide) (by decide)).1,
   ((rename_subtree_prefix_rewrite prefixFS 1 1 "A" "C" 9 "/" "/" "" ""
      (by decide) (by decide) (by decide) (by decide) (by decide) (by decide)
      (by decide) (by decide)).2.1 "/AB" 3 (by decide) (by decide)).2⟩

/-- C4 counterexample: renaming `/A` to `/C` also rewrites the sibling
`/AB` (string-prefixed but outside the `old_path + "/"` subtree) to `/CB`,
though the claim says every mapping outside the subtree is unchanged. -/
theorem rename_prefix_sibling_cex :
    assocFind prefixFS.inode_map "/AB" = some 3 ∧
    assocFind (prefixFS.rename 1 (some "A") 1 (some "C") 9).2.inode_map "/AB" = none ∧
    assocFind (prefixFS.rename 1 (some "A") 1 (some "C") 9).2.inode_map "/CB" = some 3 := by
  refine ⟨by decide, by decide, by decide⟩
